import Mathlib

/-!
# Frame reader and event scheduler of Cytosim
(`src/play/frame_reader.cc`, `src/sim/event.cc`)

A shallow embedding of `FrameReader`: the cache of frame positions
(`savePos`, `seekPos`, `lastKnownFrame`, `clearPositions`), the forward scan
(`seekFrame`) and the three loading entry points (`loadFrame`,
`loadNextFrame`, `loadLastFrame`); and of `Event`: its constructor, `reset`
and `step`. The properties proved of them follow the definitions.

Conventions of the embedding.

* `size_t` and `int` values are natural numbers. Frame indices and cache sizes
  are taken to stay below `2^31`, where the conversions between `int` and
  `size_t` made by the source are the identity. The places where the source
  computes outside that range are kept explicit: `size() - 1` on an empty
  vector in `lastKnownFrame`, `frm - cnt` in `loadLastFrame`, and `inx + 1`
  in `savePos`, for which `savePos64` carries the arithmetic modulo `2^64`;
  the properties of `savePos` at an arbitrary index carry the bound on it.
* `fpos_t` is a byte offset, a natural number.
* `std::vector::reserve` and `capacity` only steer memory allocation; no
  operation reads an effect of them back, so the cache is the list of its
  entries.
* `VLOG` writes to the log and is left out.
* A value of type `real` is the rational number it denotes. The sums and
  quotients of `Event` are those of the machine, which round: they are a
  parameter (`RealOps`), with IEEE 754 binary64 (`binary64`) as an instance.
-/

namespace Cytosim

/-! ## The input stream -/

/-- Modelled from the spec: the stream adapter `Inputter` (declared in
`iowrapper.h`, which is not among the sources). It is a byte-oriented input
with line-based scanning, absolute position get and set, end-of-file and error
flags that can be cleared, and a rewind. `data` is the content of the file,
`pos` the offset of the next byte to read, `posFails` tells at which offsets
the position query reports an error. -/
structure Inputter where
  data : List Char
  isOpen : Bool
  pos : Nat
  eofBit : Bool
  errBit : Bool
  posFails : Nat → Bool

namespace Inputter

/-- Modelled from the spec: `file()`, true when a stream is open. -/
def file (s : Inputter) : Bool := s.isOpen

/-- Modelled from the spec: `eof()`, the end-of-file flag (`isEndOfFile`). -/
def eof (s : Inputter) : Bool := s.eofBit

/-- Modelled from the spec: `good()` (`isHealthy`): open and no error flag. -/
def good (s : Inputter) : Bool := s.isOpen && !s.errBit

/-- Modelled from the spec: `clear()` (`clearErrorState`) resets the
end-of-file and error flags. -/
def clear (s : Inputter) : Inputter := { s with eofBit := false, errBit := false }

/-- Modelled from the spec: `rewind()` goes back to the start of the stream
and resets the flags. -/
def rewind (s : Inputter) : Inputter :=
  { s with pos := 0, eofBit := false, errBit := false }

/-- Modelled from the spec: `get_pos(pos)` (`currentPosition`), the current
offset, or `none` when the query reports an error. -/
def get_pos (s : Inputter) : Option Nat :=
  if s.posFails s.pos then none else some s.pos

/-- Modelled from the spec: `set_pos(pos)` (`setPosition`) moves to an offset
obtained earlier; it resets the end-of-file flag. -/
def set_pos (s : Inputter) (p : Nat) : Inputter := { s with pos := p, eofBit := false }

/-- Modelled from the spec: `get_line()` (`readLine`) returns the characters up
to the next newline and moves past that newline. When the content ends before a
newline is found, what is left is returned and the end-of-file flag is set. -/
def get_line (s : Inputter) : List Char × Inputter :=
  let rest := s.data.drop s.pos
  let line := rest.takeWhile (fun c => c != '\n')
  if line.length < rest.length then
    (line, { s with pos := s.pos + line.length + 1 })
  else
    (line, { s with pos := s.pos + line.length, eofBit := true })

end Inputter

/-! ## The reader and its cache of frame positions -/

/-- An entry of `framePos`: a confidence `status` and a `position` in the
file. The class is declared in `frame_reader.h`; the source uses exactly
these two members. -/
structure FramePosEntry where
  status : Int
  position : Nat
  deriving DecidableEq, Repr

/-- The state of a `FrameReader`: its stream, the index of the frame that is
loaded (`frameIndex`), and the vector `framePos`. -/
structure FrameReader where
  inputter : Inputter
  frameIndex : Nat
  framePos : List FramePosEntry

/-- `FrameReader::FrameReader()`: only `frameIndex` is set; `framePos` starts
as an empty vector and the stream is not open. -/
def FrameReader.new : FrameReader :=
  { inputter := { data := [], isOpen := false, pos := 0, eofBit := false,
                  errBit := false, posFails := fun _ => false },
    frameIndex := 0,
    framePos := [] }

/-- The `status` stored at an index of the vector, `0` for an index that is
beyond its size. -/
def statusAt (fp : List FramePosEntry) (i : Nat) : Int :=
  match fp[i]? with
  | some e => e.status
  | none => 0

/-- The `position` stored at an index of the vector. -/
def positionAt (fp : List FramePosEntry) (i : Nat) : Nat :=
  match fp[i]? with
  | some e => e.position
  | none => 0

/-- `FrameReader::clearPositions`: the cursor goes to 0 and the vector is
reset to the two seeded entries. -/
def clearPositions (r : FrameReader) : FrameReader :=
  { r with frameIndex := 0, framePos := [⟨1, 0⟩, ⟨1, 0⟩] }

/-- `FrameReader::clear`. -/
def clear (r : FrameReader) : FrameReader :=
  clearPositions { r with inputter := r.inputter.rewind }

/-- The growth step of `savePos`: `resize(inx+1)` followed by the loop that
sets the `status` of the new entries to 0, for an index whose successor is a
size the vector can take: `inx + 1` is not reduced modulo `2^64` here. -/
def growTo (fp : List FramePosEntry) (inx : Nat) : List FramePosEntry :=
  if inx ≥ fp.length then fp ++ List.replicate (inx + 1 - fp.length) ⟨0, 0⟩ else fp

/-- `FrameReader::savePos`, for an index `frm` with `frm + 1023` at most
`max_size()`: there the call returns and this is the reader it leaves
(`savePos64_ok`). The indices that the scan and the loading entry points pass
are the frame counter and the cursor. `savePos64` follows the source at every
index of `size_t`. -/
def savePos (r : FrameReader) (frm : Nat) (pos : Nat) (confidence : Int) : FrameReader :=
  if frm ≤ 0 then r
  else
    let inx := frm
    let fp := growTo r.framePos inx
    if statusAt fp inx < confidence then
      { r with framePos := fp.set inx ⟨confidence, pos⟩ }
    else
      { r with framePos := fp }

/-- What a call of `savePos` ends in when it does not return: the
`std::length_error` that `reserve` and `resize` throw for a size above
`max_size()`, or an access to an element outside the vector, whose behaviour
is undefined. -/
inductive SaveFault where
  | lengthError
  | outOfBounds
  deriving DecidableEq, Repr

/-- `std::vector::resize(n)`: the entries from `n` on are dropped, and
value-initialised entries are added up to `n`. -/
def resize (fp : List FramePosEntry) (n : Nat) : List FramePosEntry :=
  fp.take n ++ List.replicate (n - fp.length) ⟨0, 0⟩

/-- The loop `while ( i <= inx ) framePos[i++].status = 0` started at `i`, on
a vector that holds the index `inx`. -/
def zeroStatus (fp : List FramePosEntry) (i inx : Nat) : List FramePosEntry :=
  fp.mapIdx fun j e => if i ≤ j ∧ j ≤ inx then { e with status := 0 } else e

/-- `FrameReader::savePos` with the arithmetic of `size_t`, for an index
`frm` below `2^64`: the sums `inx + chunk - 1` and `inx + 1` are taken modulo
`2^64`. `maxSize` is `framePos.max_size()` and `cap` is `framePos.capacity()`
when the call is made; memory is taken to suffice for every size up to
`maxSize`. The result is the reader, or the fault the call ends in. -/
def savePos64 (maxSize cap : Nat) (r : FrameReader) (frm pos : Nat) (confidence : Int) :
    Except SaveFault FrameReader :=
  if frm ≤ 0 then Except.ok r
  else
    let inx := frm
    let sz := (inx + 1024 - 1) % 2 ^ 64 / 1024 * 1024
    if inx ≥ cap ∧ sz > maxSize then Except.error SaveFault.lengthError
    else
      let n := (inx + 1) % 2 ^ 64
      if inx ≥ r.framePos.length ∧ n > maxSize then Except.error SaveFault.lengthError
      else
        let fp := if inx ≥ r.framePos.length then
            zeroStatus (resize r.framePos n) r.framePos.length inx
          else r.framePos
        if fp.length ≤ inx then Except.error SaveFault.outOfBounds
        else if statusAt fp inx < confidence then
          Except.ok { r with framePos := fp.set inx ⟨confidence, pos⟩ }
        else Except.ok { r with framePos := fp }

/-- The loop of `seekPos`: `while ( inx > 0 && framePos[inx].status == 0 ) --inx`. -/
def seekPosScan (fp : List FramePosEntry) : Nat → Nat
  | 0 => 0
  | inx + 1 => if statusAt fp (inx + 1) = 0 then seekPosScan fp inx else inx + 1

/-- `FrameReader::seekPos`: returns the index that was found and the reader
with its stream moved. -/
def seekPos (r : FrameReader) (frm : Nat) : Nat × FrameReader :=
  let inp := if r.inputter.eof then r.inputter.clear else r.inputter
  if frm < 1 ∨ r.framePos.isEmpty then
    (0, { r with inputter := inp.rewind })
  else
    let inx := seekPosScan r.framePos (min frm (r.framePos.length - 1))
    if 0 < inx then
      (inx, { r with inputter := inp.set_pos (positionAt r.framePos inx) })
    else
      (0, { r with inputter := inp.rewind })

/-- The loop of `lastKnownFrame`:
`while ( 0 < res && framePos[res].status < 2 ) --res`. The result is `none`
when the loop reads outside the vector. -/
def lastKnownScan (fp : List FramePosEntry) : Nat → Option Nat
  | 0 => some 0
  | res + 1 =>
    match fp[res + 1]? with
    | none => none
    | some e => if e.status < 2 then lastKnownScan fp res else some (res + 1)

/-- `FrameReader::lastKnownFrame`. The source starts from `size() - 1`
computed on `size_t`, which is `2^64 - 1` for an empty vector. -/
def lastKnownFrame (r : FrameReader) : Option Nat :=
  lastKnownScan r.framePos (if r.framePos.length = 0 then 2 ^ 64 - 1 else r.framePos.length - 1)

/-! ## Scanning the stream for frames -/

/-- The return codes `enum FrameReaderCode`. -/
def SUCCESS : Int := 0

/-- Return code of `enum FrameReaderCode`. -/
def END_OF_FILE : Int := 1

/-- Return code of `enum FrameReaderCode`. -/
def NOT_FOUND : Int := 2

/-- Return code of `enum FrameReaderCode`. -/
def BAD_FILE : Int := 4

/-- The tag that starts a frame, `"#Cytosim "`. -/
def cytosimTag : List Char := "#Cytosim ".toList

/-- The tag `"#frame "` accepted under `BACKWARD_COMPATIBILITY`. -/
def legacyTag : List Char := "#frame ".toList

/-- The test `0 == line.compare(0, n, tag)` with `n` the length of `tag`: the
first `n` characters of the line are the tag. -/
def hasTag (tag line : List Char) : Bool := line.take tag.length == tag

/-- The `do ... while` loop of `seekFrame`: reads lines until one carries a
tag. The result is whether a tagged line was read before the end of the file,
the position captured before the last line read (`has_pos`, `pos`), and the
stream. `compat` tells whether `BACKWARD_COMPATIBILITY` is defined; the first
argument bounds the number of lines read. -/
def nextTagLine (compat : Bool) : Nat → Inputter → Bool × Option Nat × Inputter
  | 0, s => (false, none, s)
  | fuel + 1, s =>
    let pos := s.get_pos
    let (line, s1) := s.get_line
    if s1.eof then (false, pos, s1)
    else if compat && hasTag legacyTag line then (true, pos, s1)
    else if hasTag cytosimTag line then (true, pos, s1)
    else nextTagLine compat fuel s1

/-- The `while ( ! inputter.eof() )` loop of `seekFrame`, with `inx` the
running frame counter. The first numeric argument bounds the number of
rounds. -/
def scanFrames (compat : Bool) (frm : Nat) : Nat → Nat → FrameReader → Int × FrameReader
  | 0, _, r => (END_OF_FILE, r)
  | fuel + 1, inx, r =>
    if r.inputter.eof then (END_OF_FILE, r)
    else
      let found := nextTagLine compat (r.inputter.data.length + 1) r.inputter
      let r1 := { r with inputter := found.2.2 }
      if found.1 = false then (END_OF_FILE, r1)
      else if !r1.inputter.eof then
        let r2 := match found.2.1 with
          | some p => savePos r1 inx p 2
          | none => r1
        if inx = frm then
          match found.2.1 with
          | some p => (SUCCESS, { r2 with inputter := r2.inputter.set_pos p })
          | none => (SUCCESS, r2)
        else scanFrames compat frm fuel (inx + 1) r2
      else scanFrames compat frm fuel inx r1

/-- `FrameReader::seekFrame`. Every round of either loop reads at least one
character or ends the scan, so the bounds given to the loops are never
reached: `nextTagLine_fuel_add` and `scanFrames_fuel_add` show that larger
bounds give the same results. -/
def seekFrame (compat : Bool) (r : FrameReader) (frm : Nat) : Int × FrameReader :=
  let inx := (seekPos r frm).1
  let r1 := (seekPos r frm).2
  if inx = frm then (SUCCESS, r1)
  else scanFrames compat frm (r1.inputter.data.length + 1) inx r1

/-! ## Loading frames -/

/-- Modelled from the spec: the simulation collaborator `Simul` (declared in
`simul.h`, which is not among the sources). `reloadObjects` deserializes from
the stream: from the state of the simulation and the stream it gives the
return code (0 on success), the new state of the simulation, and the offset
and end-of-file flag at which it leaves the stream. Reading neither closes the
stream, nor changes its content, nor raises its error flag. -/
structure Simul (σ : Type) where
  reloadObjects : σ → Inputter → Int × σ × Nat × Bool

/-- The call `sim.reloadObjects(inputter)`: return code, state of the
simulation, and the stream where the call left it. -/
def Simul.reload {σ : Type} (sim : Simul σ) (st : σ) (inp : Inputter) : Int × σ × Inputter :=
  ((sim.reloadObjects st inp).1, (sim.reloadObjects st inp).2.1,
    { inp with pos := (sim.reloadObjects st inp).2.2.1,
               eofBit := (sim.reloadObjects st inp).2.2.2 })

/-- `FrameReader::badFile`: the code returned and the stream, whose
end-of-file flag the call may reset. -/
def badFile (s : Inputter) : Int × Inputter :=
  if s.file = false then (8, s)
  else if (if s.eof then s.clear else s).good = false then
    (7, if s.eof then s.clear else s)
  else (0, if s.eof then s.clear else s)

/-- What `loadNextFrame` and `loadFrame` record once the simulation has read
a frame and `frameIndex` is set: `pos`, captured before the read, with
confidence 4 for the frame, and the position after the read with confidence 1
for the next frame. -/
def recordFrame (r : FrameReader) (pos : Option Nat) : FrameReader :=
  let r1 := match pos with
    | some p => savePos r r.frameIndex p 4
    | none => r
  match r1.inputter.get_pos with
  | some p => savePos r1 (r1.frameIndex + 1) p 1
  | none => r1

/-- `FrameReader::loadNextFrame`. -/
def loadNextFrame {σ : Type} (sim : Simul σ) (st : σ) (r : FrameReader) :
    Int × σ × FrameReader :=
  let r0 := { r with inputter := (badFile r.inputter).2 }
  if (badFile r.inputter).1 ≠ 0 then (BAD_FILE, st, r0)
  else
    let pos := r0.inputter.get_pos
    let out := sim.reload st r0.inputter
    if out.1 = 0 then
      (SUCCESS, out.2.1,
        recordFrame { r0 with inputter := out.2.2, frameIndex := r0.frameIndex + 1 } pos)
    else (END_OF_FILE, out.2.1, { r0 with inputter := out.2.2 })

/-- The general path of `loadFrame`, from `seekFrame(frm)` to the end of the
function: find the start tag, then ask the simulation to read the frame. -/
def loadFrameSeek {σ : Type} (compat : Bool) (sim : Simul σ) (st : σ) (r : FrameReader)
    (frm : Nat) : Int × σ × FrameReader :=
  let r1 := (seekFrame compat r frm).2
  if (seekFrame compat r frm).1 ≠ SUCCESS then (NOT_FOUND, st, r1)
  else
    let pos := r1.inputter.get_pos
    let out := sim.reload st r1.inputter
    if out.1 = 0 then
      (SUCCESS, out.2.1, recordFrame { r1 with inputter := out.2.2, frameIndex := frm } pos)
    else (END_OF_FILE, out.2.1, { r1 with inputter := out.2.2 })

/-- `FrameReader::loadFrame`. -/
def loadFrame {σ : Type} (compat : Bool) (sim : Simul σ) (st : σ) (r : FrameReader)
    (frm : Nat) (reload : Bool) : Int × σ × FrameReader :=
  let r0 := { r with inputter := (badFile r.inputter).2 }
  if (badFile r.inputter).1 ≠ 0 then (BAD_FILE, st, r0)
  else if frm = r0.frameIndex ∧ reload = false then (SUCCESS, st, r0)
  else if frm = 1 + r0.frameIndex then loadNextFrame sim st r0
  else loadFrameSeek compat sim st r0 frm

/-- The loop `while ( SUCCESS == loadNextFrame(sim) ) res = SUCCESS;` of
`loadLastFrame`. The result is `none` when the loop has not ended within the
given number of rounds. -/
def tailLoop {σ : Type} (sim : Simul σ) : Nat → σ → FrameReader → Int →
    Option (Int × σ × FrameReader)
  | 0, _, _, _ => none
  | fuel + 1, st, r, res =>
    if (loadNextFrame sim st r).1 = SUCCESS then
      tailLoop sim fuel (loadNextFrame sim st r).2.1 (loadNextFrame sim st r).2.2 SUCCESS
    else some (res, (loadNextFrame sim st r).2.1, (loadNextFrame sim st r).2.2)

/-- Conversion of a `size_t` value to `int`. -/
def toInt32 (n : Nat) : Int :=
  if n % 2 ^ 32 < 2 ^ 31 then (n % 2 ^ 32 : Nat) else (n % 2 ^ 32 : Nat) - 2 ^ 32

/-- Conversion of an `int` value to `size_t`. -/
def toSize64 (z : Int) : Nat := (z % 2 ^ 64).toNat

/-- The part of `loadLastFrame` after the loop: with `res == SUCCESS` and
`cnt > 0`, seek `frm - cnt` (computed on `size_t`, modulo `2^64`) and ask the
simulation to read that frame. -/
def catchUp {σ : Type} (compat : Bool) (sim : Simul σ) (frm cnt : Nat)
    (res : Int) (st : σ) (r : FrameReader) : Int × σ × FrameReader :=
  if res = SUCCESS ∧ cnt > 0 then
    let target := (frm + 2 ^ 64 - cnt % 2 ^ 64) % 2 ^ 64
    let r3 := (seekFrame compat r target).2
    if (seekFrame compat r target).1 ≠ SUCCESS then (NOT_FOUND, st, r3)
    else
      let out := sim.reload st r3.inputter
      if out.1 = SUCCESS then
        (out.1, out.2.1,
          { r3 with inputter := out.2.2, frameIndex := toSize64 (toInt32 target) })
      else (out.1, out.2.1, { r3 with inputter := out.2.2 })
  else (res, st, r)

/-- `FrameReader::loadLastFrame`, with `cnt` a `size_t`. The result is `none`
when `lastKnownFrame` reads outside the vector or when the loop over
`loadNextFrame` has not ended within `fuel` rounds. -/
def loadLastFrame {σ : Type} (compat : Bool) (sim : Simul σ) (fuel : Nat) (st : σ)
    (r : FrameReader) (cnt : Nat) : Option (Int × σ × FrameReader) :=
  let r0 := { r with inputter := (badFile r.inputter).2 }
  if (badFile r.inputter).1 ≠ 0 then some (BAD_FILE, st, r0)
  else
    match lastKnownFrame r0 with
    | none => none
    | some frm =>
      let inp1 := if frm > 0 then r0.inputter.set_pos (positionAt r0.framePos frm)
                  else r0.inputter.rewind
      let r1 := { r0 with inputter := inp1, frameIndex := frm }
      match tailLoop sim fuel st r1 NOT_FOUND with
      | none => none
      | some out => some (catchUp compat sim frm cnt out.1 out.2.1 out.2.2)

/-! ## Frames of a stream -/

/-- The line that starts at offset `p`: the characters from `p` up to the next
newline. -/
def lineAt (data : List Char) (p : Nat) : List Char :=
  (data.drop p).takeWhile (fun c => c != '\n')

/-- The offset `p` is the start of a line: the start of the content, or right
after a newline. -/
def isLineStart (data : List Char) (p : Nat) : Bool :=
  p == 0 || data[p - 1]? == some '\n'

/-- The line that starts at `p` is ended by a newline. -/
def lineComplete (data : List Char) (p : Nat) : Bool :=
  (lineAt data p).length < (data.drop p).length

/-- A line that starts with `"#Cytosim "`, or with `"#frame "` when
`BACKWARD_COMPATIBILITY` is defined. -/
def isBoundaryLine (compat : Bool) (line : List Char) : Bool :=
  (compat && hasTag legacyTag line) || hasTag cytosimTag line

/-- A frame starts at offset `p`: a line starts there, it carries a tag, and
it is ended by a newline. -/
def isFrameStart (compat : Bool) (data : List Char) (p : Nat) : Bool :=
  isLineStart data p && isBoundaryLine compat (lineAt data p) && lineComplete data p

/-- The offsets of the frames of a stream, in increasing order. -/
def frameOffsets (compat : Bool) (data : List Char) : List Nat :=
  (List.range data.length).filter (isFrameStart compat data)

/-- Modelled from the spec: a simulation whose `reloadObjects` deserializes
one frame and advances the stream past it (`Simul::reloadObjects` is not among
the sources). A frame extends from its boundary line to the next boundary
line, or to the end of the stream. The call succeeds when the stream stands at
the start of a frame, and leaves it at the start of the next frame, or at the
end of the stream with the end-of-file flag set. Otherwise it returns 1 and
leaves the stream where it is, with the end-of-file flag set when nothing is
left to read. The state of the simulation is the offset of the frame it
holds. -/
def frameSim (compat : Bool) : Simul (Option Nat) where
  reloadObjects st inp :=
    if isFrameStart compat inp.data inp.pos then
      match (frameOffsets compat inp.data).find? (fun q => inp.pos < q) with
      | some q => (0, some inp.pos, q, false)
      | none => (0, some inp.pos, inp.data.length, true)
    else (1, st, inp.pos, inp.eofBit || decide (inp.data.length ≤ inp.pos))

/-- A reader on an open, healthy stream with the given content, as `openFile`
leaves it: positioned at the start, cache and cursor reset. -/
def openOn (data : List Char) : FrameReader :=
  clearPositions
    { inputter := { data := data, isOpen := true, pos := 0, eofBit := false,
                    errBit := false, posFails := fun _ => false },
      frameIndex := 0,
      framePos := [] }

/-- A sequence of `savePos` calls on one index, each with its own offset and
confidence. -/
def saveAll (r : FrameReader) (i : Nat) (calls : List (Nat × Int)) : FrameReader :=
  calls.foldl (fun a x => savePos a i x.1 x.2) r

/-- A sequence of `savePos` calls, each with its own index, offset and
confidence. -/
def saveSeq (r : FrameReader) (calls : List (Nat × Nat × Int)) : FrameReader :=
  calls.foldl (fun a x => savePos a x.1 x.2.1 x.2.2) r

/-- The second stream is the first one after reading and seeking: same
content, same position query, still open when the first is, and without an
error flag when the first had none. -/
def SameFile (a b : Inputter) : Prop :=
  b.data = a.data ∧ b.posFails = a.posFails ∧ b.isOpen = a.isOpen ∧
    (a.errBit = false → b.errBit = false)

/-- A reader like `openOn`, on a stream whose position query always reports
an error. -/
def openFailing (data : List Char) : FrameReader :=
  clearPositions
    { inputter := { data := data, isOpen := true, pos := 0, eofBit := false,
                    errBit := false, posFails := fun _ => true },
      frameIndex := 0,
      framePos := [] }

/-! ## Streams used as concrete inputs -/

/-- Three frames, at offsets 0, 14 and 28. -/
def threeFrames : List Char := "#Cytosim a\nxx\n#Cytosim b\nyy\n#Cytosim c\n".toList

/-- The three-frame stream after `loadFrame(1)`, which succeeds, and
`loadFrame(9)`, which does not find frame 9. -/
def afterFailedSeek : Int × Option Nat × FrameReader :=
  loadFrame false (frameSim false)
    (loadFrame false (frameSim false) none (openOn threeFrames) 1 false).2.1
    (loadFrame false (frameSim false) none (openOn threeFrames) 1 false).2.2 9 false

/-- The state `afterFailedSeek` followed by `loadFrame(1)`. -/
def afterReturn : Int × Option Nat × FrameReader :=
  loadFrame false (frameSim false) afterFailedSeek.2.1 afterFailedSeek.2.2 1 false

/-- Modelled from the spec: a simulation like `frameSim` that cannot read the
frame at offset `bad`, and whose `reloadObjects` returns `code`, a nonzero
value, whenever it fails. -/
def faultySim (compat : Bool) (bad : Nat) (code : Int) : Simul (Option Nat) where
  reloadObjects st inp :=
    if inp.pos ≠ bad ∧ isFrameStart compat inp.data inp.pos = true then
      (frameSim compat).reloadObjects st inp
    else (code, st, inp.pos, inp.eofBit || decide (inp.data.length ≤ inp.pos))

/-- The three-frame stream after `loadFrame(3)` on the freshly opened reader,
with a simulation that cannot read frame 2 and returns 7 on failure. -/
def afterThird : Int × Option Nat × FrameReader :=
  loadFrame false (faultySim false 14 7) none (openOn threeFrames) 3 false

/-- The three-frame stream after `loadFrame(1)` on the freshly opened
reader. -/
def afterFirst : Int × Option Nat × FrameReader :=
  loadFrame false (frameSim false) none (openOn threeFrames) 1 false

/-- Modelled from the spec: `error()`, the error flag of the stream. -/
def Inputter.error (s : Inputter) : Bool := s.errBit

/-- `FrameReader::openFile`. The calls to `inputter.open`, the second one
after the `gunzip` fallback, belong to the stream adapter and the file system:
`opened` is the stream as they leave it. The result is the message of the
`InvalidIO` exception when one is thrown, and the reader. `vectorSize` has no
effect on what is modelled. -/
def openFile (r : FrameReader) (opened : Inputter) : Option String × FrameReader :=
  let r1 := { clearPositions r with inputter := opened }
  if r1.inputter.file = false then (some "file not found", r1)
  else if r1.inputter.error then (some "file is invalid", r1)
  else (none, r1)

/-- `FrameReader::checkFile`: the message of the `InvalidIO` exception when
one is thrown, and the reader. -/
def checkFile (r : FrameReader) : Option String × FrameReader :=
  if r.inputter.file = false then (some "No open file", r)
  else
    let inp := if r.inputter.eof then r.inputter.clear else r.inputter
    if inp.good = false then (some "File has errors", { r with inputter := inp })
    else (none, { r with inputter := inp })

/-- The states of a reader reached from the constructor by `openFile`,
`checkFile`, `clear`, `clearPositions`, `savePos`, `seekFrame`, `loadFrame`,
`loadNextFrame` and `loadLastFrame`, with any simulation and any arguments.
A call of `savePos` on an index that the vector cannot hold does not return
in the source (`savePos64`); the states that `savePos` gives for such an index
are in this set in addition to those the source reaches. -/
inductive Reachable (compat : Bool) : FrameReader → Prop
  | created : Reachable compat FrameReader.new
  | afterCheckFile (r : FrameReader) : Reachable compat r → Reachable compat (checkFile r).2
  | afterSavePos (r : FrameReader) (frm pos : Nat) (confidence : Int) :
      Reachable compat r → Reachable compat (savePos r frm pos confidence)
  | afterOpenFile (r : FrameReader) (opened : Inputter) :
      Reachable compat r → Reachable compat (openFile r opened).2
  | afterClear (r : FrameReader) : Reachable compat r → Reachable compat (clear r)
  | afterClearPositions (r : FrameReader) :
      Reachable compat r → Reachable compat (clearPositions r)
  | afterSeekFrame (r : FrameReader) (frm : Nat) :
      Reachable compat r → Reachable compat (seekFrame compat r frm).2
  | afterLoadFrame {σ : Type} (sim : Simul σ) (st : σ) (r : FrameReader) (frm : Nat)
      (reload : Bool) :
      Reachable compat r → Reachable compat (loadFrame compat sim st r frm reload).2.2
  | afterLoadNextFrame {σ : Type} (sim : Simul σ) (st : σ) (r : FrameReader) :
      Reachable compat r → Reachable compat (loadNextFrame sim st r).2.2
  | afterLoadLastFrame {σ : Type} (sim : Simul σ) (fuel : Nat) (st : σ) (r : FrameReader)
      (cnt : Nat) (out : Int × σ × FrameReader) :
      Reachable compat r → loadLastFrame compat sim fuel st r cnt = some out →
      Reachable compat out.2.2

/-- The cache is either empty on a reader that has no open stream, or holds
the two seeded entries at least. -/
def CacheInit (r : FrameReader) : Prop :=
  (r.framePos = [] ∧ r.inputter.isOpen = false) ∨ 2 ≤ r.framePos.length

/-- From the first reader to the second, the stream is open or not as before
and the cache has not shrunk: it is unchanged, or it holds two entries at
least. -/
def CacheStep (r r' : FrameReader) : Prop :=
  r'.inputter.isOpen = r.inputter.isOpen ∧ r.framePos.length ≤ r'.framePos.length ∧
    (r'.framePos = r.framePos ∨ 2 ≤ r'.framePos.length)

/-! ## The event scheduler (`event.cc`)

The type `real` is a floating-point type chosen in a header that is not among
the sources read here. A value of type `real` is taken as the rational number
it denotes (infinities and NaN are left out), and the comparisons are those of
the rationals, as they are for floating-point numbers. The sum and the
quotient are the ones the machine computes, which round: they are the
parameter `RealOps` of the definitions. -/

/-- The sum and the quotient of two values of type `real` as the machine
computes them. -/
structure RealOps where
  add : ℚ → ℚ → ℚ
  div : ℚ → ℚ → ℚ

/-- The integer nearest to `q`, the even one when two are as near. -/
def roundHalfEven (q : ℚ) : ℤ :=
  if q - ⌊q⌋ < 1 / 2 then ⌊q⌋
  else if 1 / 2 < q - ⌊q⌋ then ⌊q⌋ + 1
  else if ⌊q⌋ % 2 = 0 then ⌊q⌋
  else ⌊q⌋ + 1

/-- The exponent of the unit in the last place of `x` in IEEE 754 binary64:
53 significant bits, the smallest exponent of a normal number being -1022. -/
def ulpExponent (x : ℚ) : ℤ := max (Int.log 2 |x|) (-1022) - 52

/-- The binary64 number nearest to `x`, ties to even. The largest exponent is
not modelled: no sum overflows to infinity. -/
def round53 (x : ℚ) : ℚ :=
  (roundHalfEven (x / 2 ^ ulpExponent x) : ℚ) * 2 ^ ulpExponent x

/-- The arithmetic of `double` (IEEE 754 binary64, rounding to nearest): the
exact result, rounded. -/
def binary64 : RealOps where
  add x y := round53 (x + y)
  div x y := round53 (x / y)

/-- Modelled from the spec: the configuration source, a table from keys to
the text and to the number given for them. -/
structure Glossary where
  text : String → Option String
  real : String → Option ℚ

/-- Modelled from the spec: `set(target, key)` for a string returns whether
`key` was present and assigns `target`; an absent key leaves `target` as it
was. -/
def Glossary.setText (opt : Glossary) (target : String) (key : String) : Bool × String :=
  match opt.text key with
  | some v => (true, v)
  | none => (false, target)

/-- Modelled from the spec: `set(target, key)` for a `real`. -/
def Glossary.setReal (opt : Glossary) (target : ℚ) (key : String) : Bool × ℚ :=
  match opt.real key with
  | some v => (true, v)
  | none => (false, target)

/-- The data members of `Event`. -/
structure Event where
  activity : String
  delay : ℚ
  rate : ℚ
  nextTime : ℚ
  deriving DecidableEq

/-- `Event::clear`. -/
def Event.clear (e : Event) : Event :=
  { e with activity := "", delay := 0, rate := 0, nextTime := 0 }

/-- `Event::reset`. `sample` is the value that `RNG.exponential()` returns,
used when `rate > 0` only. -/
def Event.reset (ops : RealOps) (e : Event) (time : ℚ) (sample : ℚ) : Event :=
  if e.rate > 0 then { e with nextTime := ops.add time (ops.div sample e.rate) }
  else { e with nextTime := ops.add time e.delay }

/-- The messages of the `InvalidParameter` exceptions of the constructor. -/
def rateMessage : String := "event:rate must be >= 0"

/-- The message for a negative `delay`. -/
def delayMessage : String := "event:delay must be >= 0"

/-- `Event::Event(real time, Glossary& opt)`: the event, or the message of
the `InvalidParameter` exception. `raw` holds the members before `clear()`,
and `sample` is what `RNG.exponential()` returns in `reset`. In
`a || b` the call `b` is made only when `a` returned false. -/
def Event.create (ops : RealOps) (raw : Event) (time : ℚ) (opt : Glossary) (sample : ℚ) :
    Except String Event :=
  let e0 := raw.clear
  let a1 := opt.setText e0.activity "activity"
  let a2 := if a1.1 then a1 else opt.setText a1.2 "code"
  let e1 := { e0 with activity := a2.2 }
  let r1 := opt.setReal e1.rate "rate"
  let e2 := { e1 with rate := r1.2 }
  let e3 := if r1.1 then e2 else { e2 with delay := (opt.setReal e2.delay "delay").2 }
  if e3.rate < 0 then Except.error rateMessage
  else if e3.delay < 0 then Except.error delayMessage
  else Except.ok (e3.reset ops time sample)

/-- Modelled from the spec: what `Event::step` uses of the simulation and of
the script evaluator: the clock `time()`, `relax()` and `unrelax()`, which
pause and resume the dynamics and leave the clock as it is, and
`Parser(sim, 1, 1, 1, 1, 1).evaluate(activity)`. -/
structure World (σ : Type) where
  time : σ → ℚ
  relax : σ → σ
  unrelax : σ → σ
  evaluate : String → σ → σ
  relax_time : ∀ s, time (relax s) = time s
  unrelax_time : ∀ s, time (unrelax s) = time s

/-- The `do ... while ( sim.time() > nextTime )` loop of `Event::step`.
`rng n` is the value of the call of `RNG.exponential()` in round `n`. The
result holds the event, the simulation and the number of rounds made so far;
it is `none` when the loop has not ended within `fuel` rounds. -/
def Event.stepLoop {σ : Type} (ops : RealOps) (w : World σ) (rng : Nat → ℚ) :
    Nat → Nat → Event → σ → Option (Event × σ × Nat)
  | 0, _, _, _ => none
  | fuel + 1, n, e, s =>
    let e1 := e.reset ops e.nextTime (rng n)
    let s1 := w.evaluate e1.activity s
    if w.time s1 > e1.nextTime then Event.stepLoop ops w rng fuel (n + 1) e1 s1
    else some (e1, s1, n + 1)

/-- `Event::step`: the event, the simulation and the number of times the
activity was evaluated. -/
def Event.step {σ : Type} (ops : RealOps) (w : World σ) (rng : Nat → ℚ) (fuel : Nat)
    (e : Event) (s : σ) : Option (Event × σ × Nat) :=
  if w.time s > e.nextTime then
    match Event.stepLoop ops w rng fuel 0 e (w.relax s) with
    | none => none
    | some out => some (out.1, w.unrelax out.2.1, out.2.2)
  else some (e, s, 0)

/-- A simulation whose clock stands at `t`, and whose state counts the
evaluations of the activity. -/
def countingWorld (t : ℚ) : World Nat where
  time _ := t
  relax s := s
  unrelax s := s
  evaluate _ s := s + 1
  relax_time _ := rfl
  unrelax_time _ := rfl

/-- A configuration with the keys `rate` and `delay`, each given or not. -/
def config (rate delay : Option ℚ) : Glossary where
  text _ := none
  real key := if key = "rate" then rate else if key = "delay" then delay else none

/-- The value of `nextTime` after `j` calls of `reset(nextTime)` on an event
with `rate = 0`: the delay added `j` times, each sum rounded. -/
def Event.schedule (ops : RealOps) (e : Event) : Nat → ℚ
  | 0 => e.nextTime
  | j + 1 => ops.add (Event.schedule ops e j) e.delay

/-- The `double` nearest to 0.1. -/
def tenth : ℚ := 3602879701896397 / 36028797018963968

/-- The `double` nearest to 0.8, which is 8 times the former. -/
def eightTenths : ℚ := 3602879701896397 / 4503599627370496

/-! # Properties -/

/-! ## Properties of the cache -/

theorem growTo_length (fp : List FramePosEntry) (inx : Nat) :
    (growTo fp inx).length = max fp.length (inx + 1) := by
  unfold growTo
  split
  · simp only [List.length_append, List.length_replicate]; omega
  · omega

theorem growTo_getElem?_lt (fp : List FramePosEntry) (inx j : Nat) (hj : j < fp.length) :
    (growTo fp inx)[j]? = fp[j]? := by
  unfold growTo
  split
  · exact List.getElem?_append_left hj
  · rfl

theorem growTo_take (fp : List FramePosEntry) (inx : Nat) :
    (growTo fp inx).take fp.length = fp := by
  unfold growTo
  split
  · simp
  · simp

theorem statusAt_growTo (fp : List FramePosEntry) (inx j : Nat) :
    statusAt (growTo fp inx) j = statusAt fp j := by
  unfold growTo
  split
  · unfold statusAt
    by_cases hj : j < fp.length
    · rw [List.getElem?_append_left hj]
    · have hj2 : fp.length ≤ j := by omega
      rw [List.getElem?_append_right hj2, List.getElem?_eq_none hj2]
      by_cases hk : j - fp.length < inx + 1 - fp.length
      · rw [List.getElem?_replicate_of_lt hk]
      · rw [List.getElem?_eq_none (by simpa using hk)]
  · rfl

theorem statusAt_of_length_le (fp : List FramePosEntry) (j : Nat) (h : fp.length ≤ j) :
    statusAt fp j = 0 := by
  unfold statusAt
  rw [List.getElem?_eq_none h]

theorem statusAt_set_self (fp : List FramePosEntry) (i : Nat) (e : FramePosEntry)
    (h : i < fp.length) : statusAt (fp.set i e) i = e.status := by
  unfold statusAt
  rw [List.getElem?_set_self h]

theorem statusAt_set_ne (fp : List FramePosEntry) (i j : Nat) (e : FramePosEntry)
    (h : i ≠ j) : statusAt (fp.set i e) j = statusAt fp j := by
  unfold statusAt
  rw [List.getElem?_set_ne h]

theorem positionAt_growTo_lt (fp : List FramePosEntry) (inx j : Nat) (hj : j < fp.length) :
    positionAt (growTo fp inx) j = positionAt fp j := by
  unfold positionAt
  rw [growTo_getElem?_lt fp inx j hj]

/-- The vector after `savePos` with a positive frame index. -/
theorem savePos_framePos (r : FrameReader) (frm pos : Nat) (c : Int) (h : 1 ≤ frm) :
    (savePos r frm pos c).framePos =
      if statusAt r.framePos frm < c then (growTo r.framePos frm).set frm ⟨c, pos⟩
      else growTo r.framePos frm := by
  unfold savePos
  rw [if_neg (by omega)]
  simp only [statusAt_growTo]
  split <;> rfl

theorem savePos_inputter (r : FrameReader) (frm pos : Nat) (c : Int) :
    (savePos r frm pos c).inputter = r.inputter := by
  unfold savePos
  split
  · rfl
  · dsimp only
    split <;> rfl

theorem savePos_frameIndex (r : FrameReader) (frm pos : Nat) (c : Int) :
    (savePos r frm pos c).frameIndex = r.frameIndex := by
  unfold savePos
  split
  · rfl
  · dsimp only
    split <;> rfl

theorem savePos_zero (r : FrameReader) (pos : Nat) (c : Int) : savePos r 0 pos c = r := by
  unfold savePos
  rw [if_pos (le_refl 0)]

theorem savePos_length (r : FrameReader) (frm pos : Nat) (c : Int) (h : 1 ≤ frm) :
    (savePos r frm pos c).framePos.length = max r.framePos.length (frm + 1) := by
  rw [savePos_framePos r frm pos c h]
  split
  · rw [List.length_set, growTo_length]
  · rw [growTo_length]

theorem savePos_length_ge (r : FrameReader) (frm pos : Nat) (c : Int) :
    r.framePos.length ≤ (savePos r frm pos c).framePos.length := by
  rcases Nat.eq_zero_or_pos frm with h | h
  · subst h; rw [savePos_zero]
  · rw [savePos_length r frm pos c h]; omega

/-- The confidence stored at the index written by `savePos` is the larger of
the confidence stored before and the confidence offered. -/
theorem savePos_statusAt_self (r : FrameReader) (frm pos : Nat) (c : Int) (h : 1 ≤ frm) :
    statusAt (savePos r frm pos c).framePos frm = max (statusAt r.framePos frm) c := by
  rw [savePos_framePos r frm pos c h]
  split
  · rename_i hlt
    rw [statusAt_set_self _ _ _ (by rw [growTo_length]; omega)]
    simp only
    omega
  · rename_i hlt
    rw [statusAt_growTo]
    omega

theorem savePos_statusAt_ne (r : FrameReader) (frm pos : Nat) (c : Int) (j : Nat)
    (h : frm ≠ j) : statusAt (savePos r frm pos c).framePos j = statusAt r.framePos j := by
  rcases Nat.eq_zero_or_pos frm with h0 | h0
  · subst h0; rw [savePos_zero]
  · rw [savePos_framePos r frm pos c h0]
    split
    · rw [statusAt_set_ne _ _ _ _ h, statusAt_growTo]
    · rw [statusAt_growTo]

theorem savePos_getElem?_ne (r : FrameReader) (frm pos : Nat) (c : Int) (j : Nat)
    (h : frm ≠ j) (hj : j < r.framePos.length) :
    (savePos r frm pos c).framePos[j]? = r.framePos[j]? := by
  rcases Nat.eq_zero_or_pos frm with h0 | h0
  · subst h0; rw [savePos_zero]
  · rw [savePos_framePos r frm pos c h0]
    split
    · rw [List.getElem?_set_ne h, growTo_getElem?_lt _ _ _ hj]
    · rw [growTo_getElem?_lt _ _ _ hj]

/-- No operation stores a negative confidence: `savePos` keeps all stored
confidences at or above 0. -/
theorem savePos_status_nonneg (r : FrameReader) (frm pos : Nat) (c : Int)
    (h : ∀ j, 0 ≤ statusAt r.framePos j) (j : Nat) :
    0 ≤ statusAt (savePos r frm pos c).framePos j := by
  by_cases hj : frm = j
  · subst hj
    rcases Nat.eq_zero_or_pos frm with h0 | h0
    · subst h0; rw [savePos_zero]; exact h 0
    · rw [savePos_statusAt_self r frm pos c h0]
      have := h frm
      omega
  · rw [savePos_statusAt_ne r frm pos c j hj]; exact h j

/-- The seeded cache stores no negative confidence. -/
theorem clearPositions_status_nonneg (r : FrameReader) (j : Nat) :
    0 ≤ statusAt (clearPositions r).framePos j := by
  show 0 ≤ statusAt [⟨1, 0⟩, ⟨1, 0⟩] j
  unfold statusAt
  match j with
  | 0 => decide
  | 1 => decide
  | j + 2 => simp

theorem saveAll_append (r : FrameReader) (i : Nat) (xs ys : List (Nat × Int)) :
    saveAll r i (xs ++ ys) = saveAll (saveAll r i xs) i ys := by
  unfold saveAll
  rw [List.foldl_append]

theorem saveAll_statusAt (i : Nat) (hi : 1 ≤ i) (calls : List (Nat × Int)) :
    ∀ r : FrameReader, statusAt (saveAll r i calls).framePos i =
      (calls.map Prod.snd).foldl max (statusAt r.framePos i) := by
  induction calls with
  | nil => intro r; rfl
  | cons x xs ih =>
    intro r
    have h := ih (savePos r i x.1 x.2)
    rw [savePos_statusAt_self r i x.1 x.2 hi] at h
    exact h

theorem saveSeq_length (calls : List (Nat × Nat × Int)) (hc : ∀ x ∈ calls, 1 ≤ x.1) :
    ∀ (r : FrameReader) (m : Nat), r.framePos.length = max 2 (1 + m) →
      (saveSeq r calls).framePos.length = max 2 (1 + (calls.map (fun x => x.1)).foldl max m) := by
  induction calls with
  | nil => intro r m h; exact h
  | cons x xs ih =>
    intro r m h
    have hx : 1 ≤ x.1 := hc x (List.mem_cons_self _ _)
    have := ih (fun y hy => hc y (List.mem_cons_of_mem _ hy)) (savePos r x.1 x.2.1 x.2.2)
      (max m x.1) (by rw [savePos_length r x.1 x.2.1 x.2.2 hx, h]; omega)
    exact this

theorem saveSeq_append (r : FrameReader) (xs ys : List (Nat × Nat × Int)) :
    saveSeq r (xs ++ ys) = saveSeq (saveSeq r xs) ys := by
  unfold saveSeq
  rw [List.foldl_append]

theorem zeroStatus_new (fp : List FramePosEntry) (k inx : Nat) :
    zeroStatus (fp ++ List.replicate k ⟨0, 0⟩) fp.length inx =
      fp ++ List.replicate k ⟨0, 0⟩ := by
  unfold zeroStatus
  apply List.ext_getElem?
  intro j
  rw [List.getElem?_mapIdx]
  by_cases hj : j < fp.length
  · rw [List.getElem?_append_left hj, List.getElem?_eq_getElem hj]
    simp only [Option.map_some']
    rw [if_neg (by omega)]
  · have hj2 : fp.length ≤ j := by omega
    rw [List.getElem?_append_right hj2]
    by_cases hk : j - fp.length < k
    · rw [List.getElem?_replicate, if_pos hk]
      simp only [Option.map_some']
      split <;> rfl
    · rw [List.getElem?_replicate, if_neg hk]
      rfl

theorem resize_grow (fp : List FramePosEntry) (n : Nat) (h : fp.length ≤ n) :
    resize fp n = fp ++ List.replicate (n - fp.length) ⟨0, 0⟩ := by
  unfold resize
  rw [List.take_of_length_le h]

/-- With `frm + 1023` at most `max_size()`, so that neither the size asked of
`reserve`, which is `frm` rounded up to a chunk, nor the size `frm + 1` asked
of `resize` goes beyond it or wraps, the call of `savePos` returns, and
`savePos` gives the reader it leaves. -/
theorem savePos64_ok (maxSize cap : Nat) (r : FrameReader) (frm pos : Nat) (c : Int)
    (hmax : maxSize < 2 ^ 64) (hb : frm + 1023 ≤ maxSize) :
    savePos64 maxSize cap r frm pos c = Except.ok (savePos r frm pos c) := by
  rcases Nat.eq_zero_or_pos frm with h0 | h0
  · subst h0
    rw [savePos_zero]
    rfl
  · have hsz : ¬ (frm ≥ cap ∧ (frm + 1024 - 1) % 2 ^ 64 / 1024 * 1024 > maxSize) := by
      intro h
      have h1 : (frm + 1024 - 1) % 2 ^ 64 = frm + 1024 - 1 := Nat.mod_eq_of_lt (by omega)
      have h2 : (frm + 1024 - 1) / 1024 * 1024 ≤ frm + 1024 - 1 := Nat.div_mul_le_self _ _
      rw [h1] at h
      omega
    have hn : (frm + 1) % 2 ^ 64 = frm + 1 := Nat.mod_eq_of_lt (by omega)
    have hfp : (if frm ≥ r.framePos.length then
          zeroStatus (resize r.framePos ((frm + 1) % 2 ^ 64)) r.framePos.length frm
        else r.framePos) = growTo r.framePos frm := by
      unfold growTo
      split
      · rename_i hge
        rw [hn, resize_grow _ _ (by omega), zeroStatus_new]
      · rfl
    have hpos : ¬ frm ≤ 0 := by omega
    have hlen : ¬ (growTo r.framePos frm).length ≤ frm := by
      rw [growTo_length]; omega
    unfold savePos64
    rw [if_neg hpos]
    dsimp only
    rw [if_neg hsz, if_neg (by rw [hn]; omega), hfp, if_neg hlen]
    unfold savePos
    rw [if_neg hpos]
    dsimp only
    split <;> rfl

/-- A call of `savePos` on an index within the vector returns, and `savePos`
gives the reader it leaves. -/
theorem savePos64_within (maxSize cap : Nat) (r : FrameReader) (frm pos : Nat) (c : Int)
    (hcap : r.framePos.length ≤ cap) (hlt : frm < r.framePos.length) :
    savePos64 maxSize cap r frm pos c = Except.ok (savePos r frm pos c) := by
  rcases Nat.eq_zero_or_pos frm with h0 | h0
  · subst h0
    rw [savePos_zero]
    rfl
  · have hpos : ¬ frm ≤ 0 := by omega
    have hin : ¬ frm ≥ r.framePos.length := by omega
    have hg : growTo r.framePos frm = r.framePos := by
      unfold growTo
      rw [if_neg hin]
    unfold savePos64
    rw [if_neg hpos]
    dsimp only
    rw [if_neg (fun h => absurd h.1 (by omega)), if_neg (fun h => hin h.1), if_neg hin,
      if_neg (by omega)]
    unfold savePos
    rw [if_neg hpos]
    dsimp only
    rw [hg]
    split <;> rfl

/-- At the last index of `size_t` the sum `inx + 1` wraps to 0: the vector is
emptied and the loop that follows writes outside it, whatever `max_size()`
and the capacity are. -/
theorem savePos64_last_index (maxSize cap : Nat) (r : FrameReader) (pos : Nat) (c : Int) :
    savePos64 maxSize cap r (2 ^ 64 - 1) pos c =
      if 2 ^ 64 - 1 < r.framePos.length then Except.ok (savePos r (2 ^ 64 - 1) pos c)
      else Except.error SaveFault.outOfBounds := by
  have hsz : (2 ^ 64 - 1 + 1024 - 1) % 2 ^ 64 / 1024 * 1024 = 0 := by decide
  have hn : (2 ^ 64 - 1 + 1) % 2 ^ 64 = 0 := by decide
  have hpos : ¬ 2 ^ 64 - 1 ≤ 0 := by decide
  by_cases hlen : 2 ^ 64 - 1 < r.framePos.length
  · have hin : ¬ 2 ^ 64 - 1 ≥ r.framePos.length := by omega
    have hg : growTo r.framePos (2 ^ 64 - 1) = r.framePos := by
      unfold growTo
      rw [if_neg hin]
    rw [if_pos hlen]
    unfold savePos64
    rw [if_neg hpos]
    dsimp only
    rw [hsz, if_neg (fun h => absurd h.2 (by omega)), if_neg (fun h => hin h.1), if_neg hin,
      if_neg (by omega)]
    unfold savePos
    rw [if_neg hpos]
    dsimp only
    rw [hg]
    split <;> rfl
  · have hin : 2 ^ 64 - 1 ≥ r.framePos.length := by omega
    have hres : zeroStatus (resize r.framePos 0) r.framePos.length (2 ^ 64 - 1) = [] := by
      unfold zeroStatus resize
      simp
    rw [if_neg hlen]
    unfold savePos64
    rw [if_neg hpos]
    dsimp only
    rw [hsz, hn, if_neg (fun h => absurd h.2 (by omega)),
      if_neg (fun h => absurd h.2 (by omega)), if_pos hin, hres]
    rfl

/-! ## Claims on the cache -/

/-- C6, counterexample. On the seeded cache, `savePos` with confidence 2
stores nothing on an index that the vector cannot hold. (a) With `max_size()`
at `2^59` and the index `2^59`, `resize(inx + 1)` asks for more than
`max_size()` and throws. (b) On the index `2^64 - 1`, whatever `max_size()`
and the capacity are, `inx + 1` wraps to 0, `resize(0)` empties the vector and
the call writes outside it. The claim has confidence 2 stored in the slot. -/
theorem savePos_large_index_stores_nothing :
    ((1 : Nat) ≤ 2 ^ 59 ∧
      savePos64 (2 ^ 59) 1024 (clearPositions FrameReader.new) (2 ^ 59) 10 2 =
        Except.error SaveFault.lengthError) ∧
    ((1 : Nat) ≤ 2 ^ 64 - 1 ∧
      ∀ maxSize cap : Nat,
        savePos64 maxSize cap (clearPositions FrameReader.new) (2 ^ 64 - 1) 10 2 =
          Except.error SaveFault.outOfBounds) := by
  refine ⟨⟨by decide, ?_⟩, ⟨by decide, ?_⟩⟩
  · unfold savePos64
    rw [if_neg (by decide)]
    dsimp only
    rw [if_neg (by decide), if_pos (by decide)]
  · intro maxSize cap
    rw [savePos64_last_index, if_neg (by decide)]

/-- C6, amended. Monotonic confidence: for an index `i ≥ 1` with
`i + 1023 ≤ max_size()`, every call of a sequence of `savePos` calls on `i`
returns, the confidence stored in slot `i` after each call is at least the
confidence stored before it, and after the whole sequence it is the maximum of
the confidence stored at the start (0 for a slot that did not exist) and of
all the confidences offered. -/
theorem savePos_confidence_monotone (maxSize : Nat) (r : FrameReader) (i : Nat) (hi : 1 ≤ i)
    (hmax : maxSize < 2 ^ 64) (hb : i + 1023 ≤ maxSize) (calls : List (Nat × Int)) :
    (∀ (k : Nat) (hk : k < calls.length) (cap : Nat),
      savePos64 maxSize cap (saveAll r i (calls.take k)) i calls[k].1 calls[k].2 =
        Except.ok (saveAll r i (calls.take (k + 1)))) ∧
    (∀ k, k < calls.length →
      statusAt (saveAll r i (calls.take k)).framePos i ≤
        statusAt (saveAll r i (calls.take (k + 1))).framePos i) ∧
    statusAt (saveAll r i calls).framePos i =
      (calls.map Prod.snd).foldl max (statusAt r.framePos i) := by
  have hsplit : ∀ (k : Nat) (hk : k < calls.length),
      saveAll r i (calls.take (k + 1)) =
        savePos (saveAll r i (calls.take k)) i calls[k].1 calls[k].2 := by
    intro k hk
    have : calls.take (k + 1) = calls.take k ++ [calls[k]] := by
      rw [List.take_succ, List.getElem?_eq_getElem hk]; rfl
    rw [this, saveAll_append]
    rfl
  refine ⟨?_, ?_, saveAll_statusAt i hi calls r⟩
  · intro k hk cap
    rw [hsplit k hk]
    exact savePos64_ok maxSize cap _ i _ _ hmax hb
  · intro k hk
    rw [hsplit k hk, savePos_statusAt_self _ i _ _ hi]
    exact le_max_left _ _

/-- C6 amended, at a concrete input: three calls on index 3 of the seeded
cache, with `max_size()` at `2^59`. -/
theorem savePos_confidence_monotone_witness :
    (1 ≤ 3) ∧ (2 ^ 59 < 2 ^ 64) ∧ (3 + 1023 ≤ 2 ^ 59) ∧
    ((∀ (k : Nat) (hk : k < [((10 : Nat), (2 : Int)), (20, 1), (30, 4)].length) (cap : Nat),
      savePos64 (2 ^ 59) cap
          (saveAll (clearPositions FrameReader.new) 3
            ([((10 : Nat), (2 : Int)), (20, 1), (30, 4)].take k)) 3
          [((10 : Nat), (2 : Int)), (20, 1), (30, 4)][k].1
          [((10 : Nat), (2 : Int)), (20, 1), (30, 4)][k].2 =
        Except.ok (saveAll (clearPositions FrameReader.new) 3
          ([((10 : Nat), (2 : Int)), (20, 1), (30, 4)].take (k + 1)))) ∧
    (∀ k, k < [((10 : Nat), (2 : Int)), (20, 1), (30, 4)].length →
      statusAt (saveAll (clearPositions FrameReader.new) 3
          ([((10 : Nat), (2 : Int)), (20, 1), (30, 4)].take k)).framePos 3 ≤
        statusAt (saveAll (clearPositions FrameReader.new) 3
          ([((10 : Nat), (2 : Int)), (20, 1), (30, 4)].take (k + 1))).framePos 3) ∧
    statusAt (saveAll (clearPositions FrameReader.new) 3
        [((10 : Nat), (2 : Int)), (20, 1), (30, 4)]).framePos 3 =
      ([((10 : Nat), (2 : Int)), (20, 1), (30, 4)].map Prod.snd).foldl max
        (statusAt (clearPositions FrameReader.new).framePos 3)) :=
  ⟨by decide, by decide, by decide,
   savePos_confidence_monotone (2 ^ 59) (clearPositions FrameReader.new) 3 (by decide)
    (by decide) (by decide) [((10 : Nat), (2 : Int)), (20, 1), (30, 4)]⟩

/-- C7, as stated, fails: on the seeded cache of two entries, `savePos` on
index 5 with confidence 0 is a rejected write (0 is not above the confidence 0
that counts for a slot beyond the size) and yet the cache grows from 2 to 6
entries. -/
theorem savePos_rejected_write_grows :
    (0 : Int) ≤ statusAt (clearPositions FrameReader.new).framePos 5 ∧
    (clearPositions FrameReader.new).framePos.length = 2 ∧
    (savePos (clearPositions FrameReader.new) 5 7 0).framePos.length = 6 ∧
    ∀ cap : Nat,
      savePos64 (2 ^ 59) cap (clearPositions FrameReader.new) 5 7 0 =
        Except.ok (savePos (clearPositions FrameReader.new) 5 7 0) := by
  refine ⟨by decide, by decide, by decide, ?_⟩
  intro cap
  exact savePos64_ok (2 ^ 59) cap _ 5 7 0 (by decide) (by decide)

/-- C7, amended. A rejected `savePos` (index 0, or an offered confidence not
above the stored one, a slot beyond the size counting as 0) returns and leaves
the reader unchanged, cache size, confidences and offsets included, when the
index is 0 or lies within the current size; an equal confidence with another
offset does not replace the stored offset. When the index lies at or beyond
the current size and `frm + 1023 ≤ max_size()`, the call returns and the cache
grows to `frm + 1` entries: the entries that existed are unchanged and the new
ones have confidence 0. -/
theorem savePos_rejected_write (maxSize cap : Nat) (r : FrameReader) (frm pos : Nat) (c : Int)
    (h : frm = 0 ∨ c ≤ statusAt r.framePos frm) :
    (frm = 0 ∨ frm < r.framePos.length →
      savePos r frm pos c = r ∧
      (r.framePos.length ≤ cap → savePos64 maxSize cap r frm pos c = Except.ok r)) ∧
    (1 ≤ frm → r.framePos.length ≤ frm → maxSize < 2 ^ 64 → frm + 1023 ≤ maxSize →
      savePos64 maxSize cap r frm pos c = Except.ok (savePos r frm pos c) ∧
      (savePos r frm pos c).framePos.length = frm + 1 ∧
      (savePos r frm pos c).framePos.take r.framePos.length = r.framePos ∧
      (∀ j, r.framePos.length ≤ j → statusAt (savePos r frm pos c).framePos j = 0) ∧
      (savePos r frm pos c).inputter = r.inputter ∧
      (savePos r frm pos c).frameIndex = r.frameIndex) := by
  constructor
  · intro hin
    have hsame : savePos r frm pos c = r := by
      rcases Nat.eq_zero_or_pos frm with h0 | h0
      · subst h0; exact savePos_zero r pos c
      · have hc : c ≤ statusAt r.framePos frm := by
          rcases h with h | h
          · omega
          · exact h
        have hlt : frm < r.framePos.length := by
          rcases hin with h | h
          · omega
          · exact h
        unfold savePos
        rw [if_neg (by omega)]
        simp only [statusAt_growTo]
        rw [if_neg (by omega)]
        unfold growTo
        rw [if_neg (by omega)]
    refine ⟨hsame, ?_⟩
    intro hcap
    rcases Nat.eq_zero_or_pos frm with h0 | h0
    · subst h0; rfl
    · have hlt : frm < r.framePos.length := by
        rcases hin with h | h
        · omega
        · exact h
      rw [savePos64_within maxSize cap r frm pos c hcap hlt, hsame]
  · intro h1 hge hmax hb
    have hc : c ≤ statusAt r.framePos frm := by
      rcases h with h | h
      · omega
      · exact h
    have hfp : (savePos r frm pos c).framePos = growTo r.framePos frm := by
      rw [savePos_framePos r frm pos c h1, if_neg (by omega)]
    refine ⟨savePos64_ok maxSize cap r frm pos c hmax hb, ?_, ?_, ?_,
      savePos_inputter r frm pos c, savePos_frameIndex r frm pos c⟩
    · rw [hfp, growTo_length]; omega
    · rw [hfp, growTo_take]
    · intro j hj
      rw [hfp, statusAt_growTo, statusAt_of_length_le _ _ hj]

/-- C7 amended, at a concrete input: an equal confidence with another offset
on the seeded entry 1. -/
theorem savePos_rejected_write_witness :
    ((1 : Nat) = 0 ∨ (1 : Int) ≤ statusAt (clearPositions FrameReader.new).framePos 1) ∧
    (savePos (clearPositions FrameReader.new) 1 99 1).framePos =
      (clearPositions FrameReader.new).framePos ∧
    savePos64 (2 ^ 59) 1024 (clearPositions FrameReader.new) 1 99 1 =
      Except.ok (clearPositions FrameReader.new) :=
  ⟨by decide,
   congrArg FrameReader.framePos
     ((savePos_rejected_write (2 ^ 59) 1024 (clearPositions FrameReader.new) 1 99 1
       (by decide)).1 (by decide)).1,
   ((savePos_rejected_write (2 ^ 59) 1024 (clearPositions FrameReader.new) 1 99 1
       (by decide)).1 (by decide)).2 (by decide)⟩

/-- C8, counterexample. On a cache of three entries, `savePos` does not
leave a cache of size `max 3 (frm + 1)` for an index that the vector cannot
hold. (a) With `max_size()` at `2^59`, a capacity of 1024 and the index
`2^59 + 1`, the size asked of `reserve` is above `max_size()` and the call
throws. (b) On the index `2^64 - 1` the size asked of `resize` is
`(frm + 1) mod 2^64 = 0`, which empties the vector, and the call then writes
outside it, whatever `max_size()` and the capacity are. -/
theorem savePos_large_index_does_not_grow :
    (savePos (clearPositions FrameReader.new) 2 28 2).framePos.length = 3 ∧
    ((1 : Nat) ≤ 2 ^ 59 + 1 ∧
      savePos64 (2 ^ 59) 1024 (savePos (clearPositions FrameReader.new) 2 28 2)
          (2 ^ 59 + 1) 10 2 =
        Except.error SaveFault.lengthError) ∧
    ((1 : Nat) ≤ 2 ^ 64 - 1 ∧
      (resize (savePos (clearPositions FrameReader.new) 2 28 2).framePos
        ((2 ^ 64 - 1 + 1) % 2 ^ 64)).length = 0 ∧
      ∀ maxSize cap : Nat,
        savePos64 maxSize cap (savePos (clearPositions FrameReader.new) 2 28 2)
            (2 ^ 64 - 1) 10 2 =
          Except.error SaveFault.outOfBounds) := by
  refine ⟨by decide, ⟨by decide, ?_⟩, ⟨by decide, by decide, ?_⟩⟩
  · unfold savePos64
    rw [if_neg (by decide)]
    dsimp only
    rw [if_pos (by decide)]
  · intro maxSize cap
    rw [savePos64_last_index, if_neg (by decide)]

/-- C8, amended. Cache growth: for `frm ≥ 1` with `frm + 1023 ≤ max_size()`,
`savePos` on a cache of size `s` returns and leaves a cache of size
`max s (frm + 1)`; every new slot `j` with `s ≤ j < frm` has confidence 0;
every slot that existed, other than `frm`, keeps its entry; and in any
sequence of calls with such indices on the seeded cache every call returns and
the size is then 1 + the highest index written, or 2 when none exceeded 1. -/
theorem savePos_growth (maxSize : Nat) (r : FrameReader) (frm pos : Nat) (c : Int)
    (hfrm : 1 ≤ frm) (hmax : maxSize < 2 ^ 64) (hb : frm + 1023 ≤ maxSize) :
    (∀ cap : Nat, savePos64 maxSize cap r frm pos c = Except.ok (savePos r frm pos c)) ∧
    (savePos r frm pos c).framePos.length = max r.framePos.length (frm + 1) ∧
    (∀ j, r.framePos.length ≤ j → j < frm →
      statusAt (savePos r frm pos c).framePos j = 0 ∧
      j < (savePos r frm pos c).framePos.length) ∧
    (∀ j, j < r.framePos.length → j ≠ frm →
      (savePos r frm pos c).framePos[j]? = r.framePos[j]?) ∧
    (∀ calls : List (Nat × Nat × Int), (∀ x ∈ calls, 1 ≤ x.1 ∧ x.1 + 1023 ≤ maxSize) →
      (∀ (k : Nat) (hk : k < calls.length) (cap : Nat),
        savePos64 maxSize cap (saveSeq (clearPositions r) (calls.take k))
            calls[k].1 calls[k].2.1 calls[k].2.2 =
          Except.ok (saveSeq (clearPositions r) (calls.take (k + 1)))) ∧
      (saveSeq (clearPositions r) calls).framePos.length =
        max 2 (1 + (calls.map (fun x => x.1)).foldl max 0)) := by
  refine ⟨fun cap => savePos64_ok maxSize cap r frm pos c hmax hb,
    savePos_length r frm pos c hfrm, ?_, ?_, ?_⟩
  · intro j hj hlt
    constructor
    · rw [savePos_statusAt_ne r frm pos c j (by omega), statusAt_of_length_le _ _ hj]
    · rw [savePos_length r frm pos c hfrm]; omega
  · intro j hj hne
    exact savePos_getElem?_ne r frm pos c j (fun h => hne h.symm) hj
  · intro calls hc
    refine ⟨?_, saveSeq_length calls (fun x hx => (hc x hx).1) (clearPositions r) 0 rfl⟩
    intro k hk cap
    have hsplit : calls.take (k + 1) = calls.take k ++ [calls[k]] := by
      rw [List.take_succ, List.getElem?_eq_getElem hk]; rfl
    rw [hsplit, saveSeq_append]
    exact savePos64_ok maxSize cap _ _ _ _ hmax (hc _ (List.getElem_mem hk)).2

/-- C8 amended, at a concrete input: index 4 written on the seeded cache,
with `max_size()` at `2^59`. -/
theorem savePos_growth_witness :
    (1 ≤ 4) ∧ (2 ^ 59 < 2 ^ 64) ∧ (4 + 1023 ≤ 2 ^ 59) ∧
    savePos64 (2 ^ 59) 1024 (clearPositions FrameReader.new) 4 120 2 =
      Except.ok (savePos (clearPositions FrameReader.new) 4 120 2) ∧
    (savePos (clearPositions FrameReader.new) 4 120 2).framePos.length =
      max (clearPositions FrameReader.new).framePos.length (4 + 1) :=
  ⟨by decide, by decide, by decide,
   (savePos_growth (2 ^ 59) (clearPositions FrameReader.new) 4 120 2 (by decide) (by decide)
      (by decide)).1 1024,
   (savePos_growth (2 ^ 59) (clearPositions FrameReader.new) 4 120 2 (by decide) (by decide)
      (by decide)).2.1⟩

theorem seekPosScan_spec (fp : List FramePosEntry) (n : Nat) :
    seekPosScan fp n ≤ n ∧
    (seekPosScan fp n = 0 ∨ statusAt fp (seekPosScan fp n) ≠ 0) ∧
    (∀ j, seekPosScan fp n < j → j ≤ n → statusAt fp j = 0) := by
  induction n with
  | zero =>
    refine ⟨le_refl 0, Or.inl rfl, ?_⟩
    intro j h1 h2
    simp only [seekPosScan] at h1
    omega
  | succ n ih =>
    unfold seekPosScan
    split
    · rename_i hz
      refine ⟨by omega, ih.2.1, ?_⟩
      intro j h1 h2
      rcases Nat.lt_or_ge n j with h | h
      · have : j = n + 1 := by omega
        rw [this]; exact hz
      · exact ih.2.2 j h1 h
    · rename_i hz
      refine ⟨le_refl _, Or.inr hz, ?_⟩
      intro j h1 h2
      omega

theorem lastKnownScan_spec (fp : List FramePosEntry) (n : Nat) (hn : n < fp.length) :
    ∃ res, lastKnownScan fp n = some res ∧ res ≤ n ∧
      (res = 0 ∨ 2 ≤ statusAt fp res) ∧
      (∀ j, res < j → j ≤ n → statusAt fp j < 2) := by
  induction n with
  | zero =>
    refine ⟨0, rfl, le_refl 0, Or.inl rfl, ?_⟩
    intro j h1 h2
    omega
  | succ n ih =>
    obtain ⟨res, h1, h2, h3, h4⟩ := ih (by omega)
    have hget : fp[n + 1]? = some fp[n + 1] := List.getElem?_eq_getElem hn
    have hst : statusAt fp (n + 1) = fp[n + 1].status := by
      unfold statusAt; rw [hget]
    unfold lastKnownScan
    rw [hget]
    dsimp only
    split
    · rename_i hlt
      refine ⟨res, h1, by omega, h3, ?_⟩
      intro j hj1 hj2
      rcases Nat.lt_or_ge n j with h | h
      · have : j = n + 1 := by omega
        rw [this, hst]; exact hlt
      · exact h4 j hj1 h
    · rename_i hlt
      refine ⟨n + 1, rfl, le_refl _, Or.inr (by rw [hst]; omega), ?_⟩
      intro j hj1 hj2
      omega

theorem seekPos_rewind (r : FrameReader) (frm : Nat) (h : frm < 1 ∨ r.framePos = []) :
    seekPos r frm =
      (0, { r with inputter :=
        (if r.inputter.eof then r.inputter.clear else r.inputter).rewind }) := by
  have hc : frm < 1 ∨ r.framePos.isEmpty = true := by
    rcases h with h | h
    · exact Or.inl h
    · right; rw [h]; rfl
  unfold seekPos
  simp only [if_pos hc]

theorem seekPos_anchor (r : FrameReader) (frm : Nat) (h1 : 1 ≤ frm) (hne : r.framePos ≠ []) :
    seekPos r frm =
      if 0 < seekPosScan r.framePos (min frm (r.framePos.length - 1)) then
        (seekPosScan r.framePos (min frm (r.framePos.length - 1)),
          { r with
            inputter :=
              Inputter.set_pos (if r.inputter.eof then r.inputter.clear else r.inputter)
                (positionAt r.framePos
                  (seekPosScan r.framePos (min frm (r.framePos.length - 1)))) })
      else
        (0, { r with inputter :=
          (if r.inputter.eof then r.inputter.clear else r.inputter).rewind }) := by
  have hc : ¬ (frm < 1 ∨ r.framePos.isEmpty = true) := by
    intro h
    rcases h with h | h
    · omega
    · exact hne (List.isEmpty_iff.mp h)
  unfold seekPos
  simp only [if_neg hc]

theorem seekPos_snd (r : FrameReader) (frm : Nat) :
    (seekPos r frm).2.inputter.eofBit = false ∧
    (seekPos r frm).2.inputter.data = r.inputter.data ∧
    (seekPos r frm).2.inputter.posFails = r.inputter.posFails ∧
    (seekPos r frm).2.inputter.isOpen = r.inputter.isOpen ∧
    (seekPos r frm).2.framePos = r.framePos ∧
    (seekPos r frm).2.frameIndex = r.frameIndex := by
  have hd : (if r.inputter.eof then r.inputter.clear else r.inputter).data = r.inputter.data := by
    split <;> rfl
  have hp : (if r.inputter.eof then r.inputter.clear else r.inputter).posFails =
      r.inputter.posFails := by
    split <;> rfl
  have ho : (if r.inputter.eof then r.inputter.clear else r.inputter).isOpen =
      r.inputter.isOpen := by
    split <;> rfl
  by_cases h : frm < 1 ∨ r.framePos = []
  · rw [seekPos_rewind r frm h]
    exact ⟨rfl, hd, hp, ho, rfl, rfl⟩
  · have h1 : 1 ≤ frm := by
      by_contra hc
      exact h (Or.inl (by omega))
    have hne : r.framePos ≠ [] := fun hc => h (Or.inr hc)
    rw [seekPos_anchor r frm h1 hne]
    split
    · exact ⟨rfl, hd, hp, ho, rfl, rfl⟩
    · exact ⟨rfl, hd, hp, ho, rfl, rfl⟩

/-- C9. Best known anchor: on a non-empty cache (whose confidences are, as
always, not negative) and for a target `frm ≥ 1`, `seekPos` returns the largest
index `i` with `1 ≤ i ≤ min frm (size - 1)` and confidence above 0 and sets
the stream to the offset stored there, or returns 0 and rewinds the stream
when there is no such index; for `frm < 1` it rewinds and returns 0. Right
after `clearPositions`, `seekPos k` for `k ≥ 1` returns 0 or 1 and leaves the
stream at offset 0. The cache and the cursor are not changed. -/
theorem seekPos_best_known_anchor (r : FrameReader) (frm : Nat)
    (hne : r.framePos ≠ []) (hst : ∀ j, 0 ≤ statusAt r.framePos j) :
    (1 ≤ frm →
      ((1 ≤ (seekPos r frm).1 ∧ (seekPos r frm).1 ≤ min frm (r.framePos.length - 1) ∧
          0 < statusAt r.framePos (seekPos r frm).1 ∧
          (seekPos r frm).2.inputter.pos = positionAt r.framePos (seekPos r frm).1) ∨
        ((seekPos r frm).1 = 0 ∧ (seekPos r frm).2.inputter.pos = 0)) ∧
      (∀ j, (seekPos r frm).1 < j → j ≤ min frm (r.framePos.length - 1) →
        ¬ 0 < statusAt r.framePos j)) ∧
    (frm < 1 → (seekPos r frm).1 = 0 ∧ (seekPos r frm).2.inputter.pos = 0) ∧
    (∀ k, 1 ≤ k →
      ((seekPos (clearPositions r) k).1 = 0 ∨ (seekPos (clearPositions r) k).1 = 1) ∧
      (seekPos (clearPositions r) k).2.inputter.pos = 0) ∧
    (seekPos r frm).2.inputter.eofBit = false ∧
    (seekPos r frm).2.framePos = r.framePos ∧
    (seekPos r frm).2.frameIndex = r.frameIndex := by
  refine ⟨?_, ?_, ?_, (seekPos_snd r frm).1, (seekPos_snd r frm).2.2.2.2.1,
    (seekPos_snd r frm).2.2.2.2.2⟩
  · intro h1
    obtain ⟨ha, hb, hc⟩ := seekPosScan_spec r.framePos (min frm (r.framePos.length - 1))
    rw [seekPos_anchor r frm h1 hne]
    split
    · rename_i hpos
      refine ⟨Or.inl ⟨hpos, ha, ?_, rfl⟩, ?_⟩
      · rcases hb with hb | hb
        · omega
        · have := hst (seekPosScan r.framePos (min frm (r.framePos.length - 1)))
          exact lt_of_le_of_ne this (Ne.symm hb)
      · intro j hj1 hj2
        have := hc j hj1 hj2
        omega
    · rename_i hpos
      refine ⟨Or.inr ⟨rfl, rfl⟩, ?_⟩
      intro j hj1 hj2
      have := hc j (by omega) hj2
      omega
  · intro h1
    rw [seekPos_rewind r frm (Or.inl h1)]
    exact ⟨rfl, rfl⟩
  · intro k hk
    have hne2 : (clearPositions r).framePos ≠ [] := by
      intro h; exact absurd h (List.cons_ne_nil _ _)
    have hmin : min k ((clearPositions r).framePos.length - 1) = 1 := by
      show min k 1 = 1
      omega
    have hscan : seekPosScan (clearPositions r).framePos 1 = 1 := rfl
    rw [seekPos_anchor (clearPositions r) k hk hne2, hmin, hscan, if_pos Nat.zero_lt_one]
    exact ⟨Or.inr rfl, rfl⟩

/-- C9, at a concrete input: target 5 on the seeded cache. -/
theorem seekPos_best_known_anchor_witness :
    (clearPositions FrameReader.new).framePos ≠ [] ∧
    (∀ j, 0 ≤ statusAt (clearPositions FrameReader.new).framePos j) ∧
    (1 ≤ 5 →
      ((1 ≤ (seekPos (clearPositions FrameReader.new) 5).1 ∧
          (seekPos (clearPositions FrameReader.new) 5).1 ≤
            min 5 ((clearPositions FrameReader.new).framePos.length - 1) ∧
          0 < statusAt (clearPositions FrameReader.new).framePos
            (seekPos (clearPositions FrameReader.new) 5).1 ∧
          (seekPos (clearPositions FrameReader.new) 5).2.inputter.pos =
            positionAt (clearPositions FrameReader.new).framePos
              (seekPos (clearPositions FrameReader.new) 5).1) ∨
        ((seekPos (clearPositions FrameReader.new) 5).1 = 0 ∧
          (seekPos (clearPositions FrameReader.new) 5).2.inputter.pos = 0)) ∧
      (∀ j, (seekPos (clearPositions FrameReader.new) 5).1 < j →
        j ≤ min 5 ((clearPositions FrameReader.new).framePos.length - 1) →
        ¬ 0 < statusAt (clearPositions FrameReader.new).framePos j)) :=
  ⟨by decide, clearPositions_status_nonneg FrameReader.new,
   (seekPos_best_known_anchor (clearPositions FrameReader.new) 5 (by decide)
      (clearPositions_status_nonneg FrameReader.new)).1⟩

/-- C10. Last confirmed index: on a cache with at least one entry,
`lastKnownFrame` returns the largest index whose confidence is at least 2, and
0 when no index has a confidence of at least 2; it returns 0 right after
`clearPositions`. -/
theorem lastKnownFrame_largest_confirmed (r : FrameReader) (hne : r.framePos ≠ []) :
    (∃ res, lastKnownFrame r = some res ∧ res < r.framePos.length ∧
      (∀ j, j < r.framePos.length → 2 ≤ statusAt r.framePos j → j ≤ res) ∧
      ((∃ j, j < r.framePos.length ∧ 2 ≤ statusAt r.framePos j) →
        2 ≤ statusAt r.framePos res) ∧
      ((∀ j, j < r.framePos.length → statusAt r.framePos j < 2) → res = 0)) ∧
    lastKnownFrame (clearPositions r) = some 0 := by
  have hlen : 0 < r.framePos.length := List.length_pos.mpr hne
  refine ⟨?_, rfl⟩
  obtain ⟨res, h1, h2, h3, h4⟩ :=
    lastKnownScan_spec r.framePos (r.framePos.length - 1) (by omega)
  refine ⟨res, ?_, by omega, ?_, ?_, ?_⟩
  · unfold lastKnownFrame
    rw [if_neg (by omega)]
    exact h1
  · intro j hj hs
    by_contra hcon
    have := h4 j (by omega) (by omega)
    omega
  · rintro ⟨j, hj, hs⟩
    rcases h3 with h3 | h3
    · have hj0 : j = 0 := by
        by_contra hcon
        have := h4 j (by omega) (by omega)
        omega
      rw [h3, ← hj0]; exact hs
    · exact h3
  · intro hall
    rcases h3 with h3 | h3
    · exact h3
    · have := hall res (by omega)
      omega

/-- C10, at a concrete input: a cache whose entries 1 and 2 are confirmed. -/
theorem lastKnownFrame_largest_confirmed_witness :
    (savePos (savePos (clearPositions FrameReader.new) 1 0 2) 2 14 2).framePos ≠ [] ∧
    lastKnownFrame (clearPositions
      (savePos (savePos (clearPositions FrameReader.new) 1 0 2) 2 14 2)) = some 0 :=
  ⟨by decide,
   (lastKnownFrame_largest_confirmed
      (savePos (savePos (clearPositions FrameReader.new) 1 0 2) 2 14 2) (by decide)).2⟩

/-! ## What the operations leave unchanged in the stream -/

theorem sameFile_refl (a : Inputter) : SameFile a a := ⟨rfl, rfl, rfl, id⟩

theorem sameFile_trans {a b c : Inputter} (h1 : SameFile a b) (h2 : SameFile b c) :
    SameFile a c :=
  ⟨h2.1.trans h1.1, h2.2.1.trans h1.2.1, h2.2.2.1.trans h1.2.2.1,
   fun h => h2.2.2.2 (h1.2.2.2 h)⟩

theorem sameFile_clear (a : Inputter) : SameFile a a.clear := ⟨rfl, rfl, rfl, fun _ => rfl⟩

theorem sameFile_rewind (a : Inputter) : SameFile a a.rewind := ⟨rfl, rfl, rfl, fun _ => rfl⟩

theorem sameFile_set_pos (a : Inputter) (p : Nat) : SameFile a (a.set_pos p) :=
  ⟨rfl, rfl, rfl, id⟩

theorem sameFile_get_line (a : Inputter) : SameFile a a.get_line.2 := by
  unfold Inputter.get_line
  dsimp only
  split
  · exact ⟨rfl, rfl, rfl, id⟩
  · exact ⟨rfl, rfl, rfl, id⟩

theorem sameFile_reload {σ : Type} (sim : Simul σ) (st : σ) (a : Inputter) :
    SameFile a (sim.reload st a).2.2 := ⟨rfl, rfl, rfl, id⟩

theorem sameFile_nextTagLine (compat : Bool) (fuel : Nat) :
    ∀ s : Inputter, SameFile s (nextTagLine compat fuel s).2.2 := by
  induction fuel with
  | zero => intro s; exact sameFile_refl s
  | succ n ih =>
    intro s
    unfold nextTagLine
    dsimp only
    split
    · exact sameFile_get_line s
    · split
      · exact sameFile_get_line s
      · split
        · exact sameFile_get_line s
        · exact sameFile_trans (sameFile_get_line s) (ih _)

theorem sameFile_seekPos (r : FrameReader) (frm : Nat) :
    SameFile r.inputter (seekPos r frm).2.inputter := by
  have h0 : SameFile r.inputter (if r.inputter.eof then r.inputter.clear else r.inputter) := by
    split
    · exact sameFile_clear _
    · exact sameFile_refl _
  unfold seekPos
  dsimp only
  split
  · exact sameFile_trans h0 (sameFile_rewind _)
  · split
    · exact sameFile_trans h0 (sameFile_set_pos _ _)
    · exact sameFile_trans h0 (sameFile_rewind _)

theorem sameFile_scanFrames (compat : Bool) (frm fuel : Nat) :
    ∀ (inx : Nat) (r : FrameReader),
      SameFile r.inputter (scanFrames compat frm fuel inx r).2.inputter := by
  induction fuel with
  | zero => intro inx r; exact sameFile_refl _
  | succ n ih =>
    intro inx r
    have hn := sameFile_nextTagLine compat (r.inputter.data.length + 1) r.inputter
    unfold scanFrames
    dsimp only
    split
    · exact sameFile_refl _
    · split
      · exact hn
      · split
        · have h2 : SameFile r.inputter
              (match (nextTagLine compat (r.inputter.data.length + 1) r.inputter).2.1 with
                | some p =>
                  savePos
                    { r with
                      inputter :=
                        (nextTagLine compat (r.inputter.data.length + 1) r.inputter).2.2 }
                    inx p 2
                | none =>
                  { r with
                    inputter :=
                      (nextTagLine compat (r.inputter.data.length + 1)
                        r.inputter).2.2 }).inputter := by
            cases (nextTagLine compat (r.inputter.data.length + 1) r.inputter).2.1 with
            | none => exact hn
            | some p => dsimp only; rw [savePos_inputter]; exact hn
          split
          · revert h2
            cases (nextTagLine compat (r.inputter.data.length + 1) r.inputter).2.1 with
            | none => intro h2; exact h2
            | some p => intro h2; exact sameFile_trans h2 (sameFile_set_pos _ _)
          · exact sameFile_trans h2 (ih _ _)
        · exact sameFile_trans hn (ih _ _)

theorem sameFile_seekFrame (compat : Bool) (r : FrameReader) (frm : Nat) :
    SameFile r.inputter (seekFrame compat r frm).2.inputter := by
  have h := sameFile_seekPos r frm
  unfold seekFrame
  dsimp only
  split
  · exact h
  · exact sameFile_trans h (sameFile_scanFrames compat frm _ _ _)

/-! ## Loading a frame twice -/

theorem badFile_of_good (s : Inputter) (ho : s.isOpen = true) (he : s.errBit = false) :
    badFile s = (0, if s.eof then s.clear else s) := by
  have h1 : ¬ (s.file = false) := by simp [Inputter.file, ho]
  have h2 : ¬ ((if s.eof then s.clear else s).good = false) := by
    split <;> simp [Inputter.good, Inputter.clear, ho, he]
  unfold badFile
  rw [if_neg h1, if_neg h2]

theorem badFile_zero (s : Inputter) (h : (badFile s).1 = 0) :
    (badFile s).2.isOpen = true ∧ (badFile s).2.errBit = false ∧
    (badFile s).2.eofBit = false ∧ SameFile s (badFile s).2 ∧ (badFile s).2.pos = s.pos := by
  by_cases h1 : s.file = false
  · have hb : badFile s = (8, s) := by unfold badFile; rw [if_pos h1]
    rw [hb] at h
    have h8 : (8 : Int) = 0 := h
    omega
  · by_cases h2 : (if s.eof then s.clear else s).good = false
    · have hb : badFile s = (7, if s.eof then s.clear else s) := by
        unfold badFile; rw [if_neg h1, if_pos h2]
      rw [hb] at h
      have h7 : (7 : Int) = 0 := h
      omega
    · have hb : badFile s = (0, if s.eof then s.clear else s) := by
        unfold badFile; rw [if_neg h1, if_neg h2]
      have ho : s.isOpen = true := by simpa [Inputter.file] using h1
      rw [hb]
      dsimp only
      by_cases h3 : s.eof = true
      · rw [if_pos h3]
        exact ⟨ho, rfl, rfl, sameFile_clear s, rfl⟩
      · rw [if_neg h3] at h2 ⊢
        have he : s.errBit = false := by
          simpa [Inputter.good, ho] using h2
        have h4 : s.eofBit = false := by simpa [Inputter.eof] using h3
        exact ⟨ho, he, h4, sameFile_refl s, rfl⟩

theorem recordFrame_inputter (r : FrameReader) (pos : Option Nat) :
    (recordFrame r pos).inputter = r.inputter := by
  unfold recordFrame
  dsimp only
  cases pos with
  | none =>
    dsimp only
    split
    · rw [savePos_inputter]
    · rfl
  | some p =>
    dsimp only
    split
    · rw [savePos_inputter, savePos_inputter]
    · rw [savePos_inputter]

theorem recordFrame_frameIndex (r : FrameReader) (pos : Option Nat) :
    (recordFrame r pos).frameIndex = r.frameIndex := by
  unfold recordFrame
  dsimp only
  cases pos with
  | none =>
    dsimp only
    split
    · rw [savePos_frameIndex]
    · rfl
  | some p =>
    dsimp only
    split
    · rw [savePos_frameIndex, savePos_frameIndex]
    · rw [savePos_frameIndex]

/-- After a successful `loadNextFrame` the cursor has advanced by one, and
the stream is still open and without an error flag. -/
theorem loadNextFrame_success {σ : Type} (sim : Simul σ) (st : σ) (r : FrameReader)
    (h : (loadNextFrame sim st r).1 = SUCCESS) :
    (loadNextFrame sim st r).2.2.frameIndex = r.frameIndex + 1 ∧
    (loadNextFrame sim st r).2.2.inputter.isOpen = true ∧
    (loadNextFrame sim st r).2.2.inputter.errBit = false := by
  have hb := badFile_zero r.inputter
  unfold loadNextFrame at h ⊢
  dsimp only at h ⊢
  split at h
  · simp [BAD_FILE, SUCCESS] at h
  · rename_i hbad
    have hz : (badFile r.inputter).1 = 0 := by
      by_contra hc; exact hbad hc
    obtain ⟨ho, he, -, -, -⟩ := hb hz
    rw [if_neg hbad]
    split at h
    · rename_i hres
      rw [if_pos hres]
      dsimp only
      rw [recordFrame_inputter, recordFrame_frameIndex]
      exact ⟨rfl, (sameFile_reload sim st _).2.2.1.trans ho, (sameFile_reload sim st _).2.2.2 he⟩
    · simp [END_OF_FILE, SUCCESS] at h

/-- After a successful general path of `loadFrame` the cursor is the frame
asked for, and a stream that was open and without an error flag still is. -/
theorem loadFrameSeek_success {σ : Type} (compat : Bool) (sim : Simul σ) (st : σ)
    (r : FrameReader) (frm : Nat) (ho : r.inputter.isOpen = true)
    (he : r.inputter.errBit = false)
    (h : (loadFrameSeek compat sim st r frm).1 = SUCCESS) :
    (loadFrameSeek compat sim st r frm).2.2.frameIndex = frm ∧
    (loadFrameSeek compat sim st r frm).2.2.inputter.isOpen = true ∧
    (loadFrameSeek compat sim st r frm).2.2.inputter.errBit = false := by
  have hs := sameFile_seekFrame compat r frm
  unfold loadFrameSeek at h ⊢
  dsimp only at h ⊢
  split at h
  · simp [NOT_FOUND, SUCCESS] at h
  · rename_i hcode
    rw [if_neg hcode]
    split at h
    · rename_i hres
      rw [if_pos hres]
      dsimp only
      rw [recordFrame_inputter, recordFrame_frameIndex]
      exact ⟨rfl, ((sameFile_reload sim st _).2.2.1.trans hs.2.2.1).trans ho,
        (sameFile_reload sim st _).2.2.2 (hs.2.2.2 he)⟩
    · simp [END_OF_FILE, SUCCESS] at h

/-- After a successful `loadFrame` the cursor is the frame asked for, and the
stream is open and without an error flag. -/
theorem loadFrame_success {σ : Type} (compat : Bool) (sim : Simul σ) (st : σ)
    (r : FrameReader) (frm : Nat) (reload : Bool)
    (h : (loadFrame compat sim st r frm reload).1 = SUCCESS) :
    (loadFrame compat sim st r frm reload).2.2.frameIndex = frm ∧
    (loadFrame compat sim st r frm reload).2.2.inputter.isOpen = true ∧
    (loadFrame compat sim st r frm reload).2.2.inputter.errBit = false := by
  have hb := badFile_zero r.inputter
  unfold loadFrame at h ⊢
  dsimp only at h ⊢
  split at h
  · simp [BAD_FILE, SUCCESS] at h
  · rename_i hbad
    have hz : (badFile r.inputter).1 = 0 := by
      by_contra hc; exact hbad hc
    obtain ⟨ho, he, -, -, -⟩ := hb hz
    rw [if_neg hbad]
    split at h
    · rename_i hhit
      rw [if_pos hhit]
      exact ⟨hhit.1.symm, ho, he⟩
    · rename_i hhit
      rw [if_neg hhit]
      split at h
      · rename_i hnext
        rw [if_pos hnext]
        obtain ⟨h1, h2, h3⟩ := loadNextFrame_success sim st _ h
        refine ⟨?_, h2, h3⟩
        rw [h1, hnext]
        exact Nat.add_comm _ _
      · rename_i hnext
        rw [if_neg hnext]
        exact loadFrameSeek_success compat sim st _ frm ho he h

/-- C4. Idempotent reload: when `loadFrame(sim, f, false)` returns SUCCESS, a
second `loadFrame(sim, f, false)` right after it also returns SUCCESS, leaves
the simulation in the state it was in (whatever the simulation is, so
`reloadObjects` was not called), and changes neither the position of the
stream, nor the cursor, nor the cache. -/
theorem loadFrame_twice {σ : Type} (compat : Bool) (sim : Simul σ) (st : σ)
    (r : FrameReader) (f : Nat)
    (h : (loadFrame compat sim st r f false).1 = SUCCESS) :
    (loadFrame compat sim (loadFrame compat sim st r f false).2.1
        (loadFrame compat sim st r f false).2.2 f false).1 = SUCCESS ∧
    (loadFrame compat sim (loadFrame compat sim st r f false).2.1
        (loadFrame compat sim st r f false).2.2 f false).2.1 =
      (loadFrame compat sim st r f false).2.1 ∧
    (loadFrame compat sim (loadFrame compat sim st r f false).2.1
        (loadFrame compat sim st r f false).2.2 f false).2.2.inputter.pos =
      (loadFrame compat sim st r f false).2.2.inputter.pos ∧
    (loadFrame compat sim (loadFrame compat sim st r f false).2.1
        (loadFrame compat sim st r f false).2.2 f false).2.2.frameIndex =
      (loadFrame compat sim st r f false).2.2.frameIndex ∧
    (loadFrame compat sim (loadFrame compat sim st r f false).2.1
        (loadFrame compat sim st r f false).2.2 f false).2.2.framePos =
      (loadFrame compat sim st r f false).2.2.framePos := by
  obtain ⟨h1, h2, h3⟩ := loadFrame_success compat sim st r f false h
  generalize (loadFrame compat sim st r f false).2.1 = st1 at *
  generalize (loadFrame compat sim st r f false).2.2 = r1 at *
  have hb := badFile_of_good r1.inputter h2 h3
  have hz : ¬ ((badFile r1.inputter).1 ≠ 0) := by rw [hb]; simp
  have hhit : f = r1.frameIndex ∧ false = false := ⟨h1.symm, rfl⟩
  unfold loadFrame
  dsimp only
  rw [if_neg hz, if_pos hhit]
  refine ⟨rfl, rfl, ?_, rfl, rfl⟩
  show (badFile r1.inputter).2.pos = r1.inputter.pos
  rw [hb]
  dsimp only
  split <;> rfl

/-! ## Lines of the stream -/

theorem lineComplete_bound (data : List Char) (p : Nat) (h : lineComplete data p = true) :
    p + (lineAt data p).length + 1 ≤ data.length := by
  have h' : (lineAt data p).length < (data.drop p).length := by
    simpa [lineComplete] using h
  rw [List.length_drop] at h'
  omega

theorem get_line_complete (s : Inputter) (h : lineComplete s.data s.pos = true) :
    s.get_line.2 = { s with pos := s.pos + (lineAt s.data s.pos).length + 1 } := by
  have h' : ((s.data.drop s.pos).takeWhile (fun c => c != '\n')).length <
      (s.data.drop s.pos).length := by
    simpa [lineComplete, lineAt] using h
  unfold Inputter.get_line lineAt
  dsimp only
  rw [if_pos h']

theorem get_line_incomplete (s : Inputter) (h : lineComplete s.data s.pos = false) :
    s.get_line.2 = { s with pos := s.pos + (lineAt s.data s.pos).length, eofBit := true } := by
  have h' : ¬ ((s.data.drop s.pos).takeWhile (fun c => c != '\n')).length <
      (s.data.drop s.pos).length := by
    simpa [lineComplete, lineAt] using h
  unfold Inputter.get_line lineAt
  dsimp only
  rw [if_neg h']

theorem nextTagLine_succ (compat : Bool) (fuel : Nat) (s : Inputter) :
    nextTagLine compat (fuel + 1) s =
      if s.get_line.2.eof then (false, s.get_pos, s.get_line.2)
      else if compat && hasTag legacyTag s.get_line.1 then (true, s.get_pos, s.get_line.2)
      else if hasTag cytosimTag s.get_line.1 then (true, s.get_pos, s.get_line.2)
      else nextTagLine compat fuel s.get_line.2 := rfl

/-- When the inner loop of `seekFrame` stops on a tagged line, the stream has
moved forward, stays within the content, and has no end-of-file flag. -/
theorem nextTagLine_progress (compat : Bool) :
    ∀ (fuel : Nat) (s : Inputter), (nextTagLine compat fuel s).1 = true →
      s.pos < (nextTagLine compat fuel s).2.2.pos ∧
      (nextTagLine compat fuel s).2.2.pos ≤ s.data.length ∧
      (nextTagLine compat fuel s).2.2.eofBit = false := by
  intro fuel
  induction fuel with
  | zero => intro s h; exact absurd h (by simp [nextTagLine])
  | succ n ih =>
    intro s
    rw [nextTagLine_succ]
    by_cases hcomp : lineComplete s.data s.pos = true
    · have hgl := get_line_complete s hcomp
      have hb := lineComplete_bound s.data s.pos hcomp
      have hstep : s.pos < s.get_line.2.pos ∧ s.get_line.2.pos ≤ s.data.length := by
        rw [hgl]; exact ⟨by show s.pos < s.pos + (lineAt s.data s.pos).length + 1; omega, hb⟩
      by_cases he : s.get_line.2.eof = true
      · rw [if_pos he]; intro h; exact absurd h (by simp)
      · rw [if_neg he]
        have he' : s.get_line.2.eofBit = false := by simpa [Inputter.eof] using he
        split
        · intro _; exact ⟨hstep.1, hstep.2, he'⟩
        · split
          · intro _; exact ⟨hstep.1, hstep.2, he'⟩
          · intro h
            have hrec := ih s.get_line.2 h
            have hd : s.get_line.2.data = s.data := by rw [hgl]
            rw [hd] at hrec
            exact ⟨by omega, hrec.2.1, hrec.2.2⟩
    · have hcomp' : lineComplete s.data s.pos = false := by simpa using hcomp
      have he : s.get_line.2.eof = true := by rw [get_line_incomplete s hcomp']; rfl
      rw [if_pos he]
      intro h; exact absurd h (by simp)

/-- A larger bound does not change the result of the inner loop of
`seekFrame`, once the bound exceeds the number of characters left. -/
theorem nextTagLine_fuel (compat : Bool) :
    ∀ (fuel : Nat) (s : Inputter), 0 < fuel → s.data.length < fuel + s.pos →
      nextTagLine compat (fuel + 1) s = nextTagLine compat fuel s := by
  intro fuel
  induction fuel with
  | zero => intro s h; omega
  | succ n ih =>
    intro s _ hlen
    rw [nextTagLine_succ compat (n + 1) s, nextTagLine_succ compat n s]
    by_cases hcomp : lineComplete s.data s.pos = true
    · have hgl := get_line_complete s hcomp
      have hb := lineComplete_bound s.data s.pos hcomp
      have hrec := ih s.get_line.2 (by omega)
        (by rw [hgl]
            show s.data.length < n + (s.pos + (lineAt s.data s.pos).length + 1)
            omega)
      rw [hrec]
    · have hcomp' : lineComplete s.data s.pos = false := by simpa using hcomp
      have he : s.get_line.2.eof = true := by rw [get_line_incomplete s hcomp']; rfl
      rw [if_pos he, if_pos he]

theorem scanFrames_succ (compat : Bool) (frm fuel inx : Nat) (r : FrameReader) :
    scanFrames compat frm (fuel + 1) inx r =
      if r.inputter.eof then (END_OF_FILE, r)
      else
        let found := nextTagLine compat (r.inputter.data.length + 1) r.inputter
        let r1 := { r with inputter := found.2.2 }
        if found.1 = false then (END_OF_FILE, r1)
        else if !r1.inputter.eof then
          let r2 := match found.2.1 with
            | some p => savePos r1 inx p 2
            | none => r1
          if inx = frm then
            match found.2.1 with
            | some p => (SUCCESS, { r2 with inputter := r2.inputter.set_pos p })
            | none => (SUCCESS, r2)
          else scanFrames compat frm fuel (inx + 1) r2
        else scanFrames compat frm fuel inx r1 := rfl

/-- A larger bound does not change the result of the outer loop of
`seekFrame`, once the bound exceeds the number of characters left. -/
theorem scanFrames_fuel (compat : Bool) (frm : Nat) :
    ∀ (fuel inx : Nat) (r : FrameReader), 0 < fuel →
      r.inputter.data.length < fuel + r.inputter.pos →
      scanFrames compat frm (fuel + 1) inx r = scanFrames compat frm fuel inx r := by
  intro fuel
  induction fuel with
  | zero => intro inx r h; omega
  | succ n ih =>
    intro inx r _ hlen
    rw [scanFrames_succ compat frm (n + 1) inx r, scanFrames_succ compat frm n inx r]
    dsimp only
    by_cases heof : r.inputter.eof = true
    · rw [if_pos heof, if_pos heof]
    · rw [if_neg heof, if_neg heof]
      by_cases hf : (nextTagLine compat (r.inputter.data.length + 1) r.inputter).1 = false
      · rw [if_pos hf, if_pos hf]
      · rw [if_neg hf, if_neg hf]
        have hf' : (nextTagLine compat (r.inputter.data.length + 1) r.inputter).1 = true := by
          simpa using hf
        obtain ⟨hp1, hp2, hp3⟩ :=
          nextTagLine_progress compat (r.inputter.data.length + 1) r.inputter hf'
        have hd := (sameFile_nextTagLine compat (r.inputter.data.length + 1) r.inputter).1
        have hne : (!(nextTagLine compat (r.inputter.data.length + 1) r.inputter).2.2.eof) =
            true := by
          simp [Inputter.eof, hp3]
        rw [if_pos hne, if_pos hne]
        by_cases hfrm : inx = frm
        · rw [if_pos hfrm, if_pos hfrm]
        · rw [if_neg hfrm, if_neg hfrm]
          apply ih
          · omega
          · cases (nextTagLine compat (r.inputter.data.length + 1) r.inputter).2.1 with
            | none => dsimp only; rw [hd]; omega
            | some p => dsimp only; rw [savePos_inputter]; dsimp only; rw [hd]; omega

/-- The inner loop of `seekFrame` gives the same result with any bound above
the one `seekFrame` uses. -/
theorem nextTagLine_fuel_add (compat : Bool) (s : Inputter) (k : Nat) :
    nextTagLine compat (s.data.length + 1 + k) s =
      nextTagLine compat (s.data.length + 1) s := by
  induction k with
  | zero => rfl
  | succ k ih =>
    rw [← Nat.add_assoc, nextTagLine_fuel compat (s.data.length + 1 + k) s (by omega) (by omega)]
    exact ih

/-- The outer loop of `seekFrame` gives the same result with any bound above
the one `seekFrame` uses. -/
theorem scanFrames_fuel_add (compat : Bool) (frm inx : Nat) (r : FrameReader) (k : Nat) :
    scanFrames compat frm (r.inputter.data.length + 1 + k) inx r =
      scanFrames compat frm (r.inputter.data.length + 1) inx r := by
  induction k with
  | zero => rfl
  | succ k ih =>
    rw [← Nat.add_assoc,
      scanFrames_fuel compat frm (r.inputter.data.length + 1 + k) inx r (by omega) (by omega)]
    exact ih

/-- Once the loop of `loadLastFrame` has ended within a bound, it gives the
same result within any larger bound. -/
theorem tailLoop_fuel {σ : Type} (sim : Simul σ) :
    ∀ (fuel : Nat) (st : σ) (r : FrameReader) (res : Int) (out : Int × σ × FrameReader),
      tailLoop sim fuel st r res = some out → tailLoop sim (fuel + 1) st r res = some out := by
  intro fuel
  induction fuel with
  | zero => intro st r res out h; exact absurd h (by simp [tailLoop])
  | succ n ih =>
    intro st r res out h
    rw [tailLoop] at h ⊢
    by_cases hc : (loadNextFrame sim st r).1 = SUCCESS
    · rw [if_pos hc] at h ⊢
      exact ih _ _ _ _ h
    · rw [if_neg hc] at h ⊢
      exact h

/-! ## Claims on seeking and loading -/

/-- C2, the code at a failing input: on the stream of three frames, a first
`loadLastFrame(sim, 0)` on the freshly opened reader returns SUCCESS with the
cursor at 3; a second `loadLastFrame(sim, 0)` returns SUCCESS with the cursor
at 4, and has stored offset 28, where frame 3 starts, for frame 4 with
confidence 4. -/
theorem loadLastFrame_again_overshoots :
    frameOffsets false threeFrames = [0, 14, 28] ∧
    (loadLastFrame false (frameSim false) 10 none (openOn threeFrames) 0).map
        (fun x => (x.1, x.2.2.frameIndex)) = some (SUCCESS, 3) ∧
    ((loadLastFrame false (frameSim false) 10 none (openOn threeFrames) 0).bind
        (fun x => loadLastFrame false (frameSim false) 10 x.2.1 x.2.2 0)).map
        (fun x => (x.1, x.2.2.frameIndex, x.2.2.framePos[4]?)) =
      some (SUCCESS, 4, some ⟨4, 28⟩) := by
  decide

/-- C3, the code at a failing input: on the stream of three frames and the
freshly opened reader, `loadLastFrame(sim, 1)` returns NOT_FOUND and leaves
the cursor at 3, where the claim has SUCCESS and the cursor at 2; and after a
first `loadLastFrame(sim, 0)`, `loadLastFrame(sim, 3)` returns SUCCESS with the
cursor at 0, where the claim has NOT_FOUND. -/
theorem loadLastFrame_catch_up_misses :
    frameOffsets false threeFrames = [0, 14, 28] ∧
    (loadLastFrame false (frameSim false) 10 none (openOn threeFrames) 1).map
        (fun x => (x.1, x.2.2.frameIndex)) = some (NOT_FOUND, 3) ∧
    ((loadLastFrame false (frameSim false) 10 none (openOn threeFrames) 0).bind
        (fun x => loadLastFrame false (frameSim false) 10 x.2.1 x.2.2 3)).map
        (fun x => (x.1, x.2.2.frameIndex)) = some (SUCCESS, 0) := by
  decide

/-- C4, at a concrete input: frame 1 of the three-frame stream loaded twice. -/
theorem loadFrame_twice_witness :
    (loadFrame false (frameSim false) none (openOn threeFrames) 1 false).1 = SUCCESS ∧
    (loadFrame false (frameSim false)
        (loadFrame false (frameSim false) none (openOn threeFrames) 1 false).2.1
        (loadFrame false (frameSim false) none (openOn threeFrames) 1 false).2.2 1 false).1 =
      SUCCESS :=
  ⟨by decide,
   (loadFrame_twice false (frameSim false) none (openOn threeFrames) 1 (by decide)).1⟩

/-- C5, the code at a failing input: on the stream of three frames,
`loadFrame(1)` succeeds, `loadFrame(9)` returns NOT_FOUND and leaves the
stream at the end of the file with the cursor still at 1, and `loadFrame(1)`
then succeeds without moving the stream. From that state `loadNextFrame`
returns END_OF_FILE with the cursor at 1, while the general path for frame 2
returns SUCCESS with the cursor at 2 and offset 14 stored for frame 2 with
confidence 4. -/
theorem loadNextFrame_differs_after_failed_seek :
    (loadFrame false (frameSim false) none (openOn threeFrames) 1 false).1 = SUCCESS ∧
    (loadFrame false (frameSim false)
        (loadFrame false (frameSim false) none (openOn threeFrames) 1 false).2.1
        (loadFrame false (frameSim false) none (openOn threeFrames) 1 false).2.2 9 false).1 =
      NOT_FOUND ∧
    (loadFrame false (frameSim false) (afterFailedSeek).2.1 (afterFailedSeek).2.2 1 false).1 =
      SUCCESS ∧
    (loadNextFrame (frameSim false) (afterReturn).2.1 (afterReturn).2.2).1 = END_OF_FILE ∧
    (loadNextFrame (frameSim false) (afterReturn).2.1 (afterReturn).2.2).2.2.frameIndex = 1 ∧
    (loadFrameSeek false (frameSim false) (afterReturn).2.1 (afterReturn).2.2 2).1 = SUCCESS ∧
    (loadFrameSeek false (frameSim false) (afterReturn).2.1 (afterReturn).2.2 2).2.2.frameIndex = 2 ∧
    (loadFrameSeek false (frameSim false) (afterReturn).2.1
      (afterReturn).2.2 2).2.2.framePos[2]? = some ⟨4, 14⟩ := by
  decide

/-! ## Claims on the loading entry points -/

theorem savePos_framePos_congr (r r' : FrameReader) (frm pos : Nat) (c : Int)
    (h : r.framePos = r'.framePos) :
    (savePos r frm pos c).framePos = (savePos r' frm pos c).framePos := by
  unfold savePos
  rw [h]
  split
  · exact h
  · dsimp only
    split <;> rfl

/-- The vector after `recordFrame`, in terms of the two position queries. -/
theorem recordFrame_framePos (r : FrameReader) (p q : Nat) (hq : r.inputter.pos = q) :
    (recordFrame r (if r.inputter.posFails p = true then none else some p)).framePos =
      (if r.inputter.posFails q = true then
        (if r.inputter.posFails p = true then r else savePos r r.frameIndex p 4)
      else
        savePos (if r.inputter.posFails p = true then r else savePos r r.frameIndex p 4)
          (r.frameIndex + 1) q 1).framePos := by
  unfold recordFrame
  by_cases hp : r.inputter.posFails p = true
  · simp only [if_pos hp]
    unfold Inputter.get_pos
    rw [hq]
    by_cases hqf : r.inputter.posFails q = true
    · simp only [if_pos hqf]
    · simp only [if_neg hqf]
  · simp only [if_neg hp]
    unfold Inputter.get_pos
    rw [savePos_inputter, savePos_frameIndex, hq]
    by_cases hqf : r.inputter.posFails q = true
    · simp only [if_pos hqf]
    · simp only [if_neg hqf]

/-- C12, as stated, fails when the position query fails: on the three-frame
stream with a failing position query, `reloadObjects` succeeds from offset 0
and leaves the stream at offset 14, `loadNextFrame` returns SUCCESS with the
cursor at 1, and the cache is unchanged, where offering `(1, 0)` with
confidence 4 would have raised entry 1. -/
theorem loadNextFrame_offers_nothing_without_position :
    (loadNextFrame (frameSim false) none (openFailing threeFrames)).1 = SUCCESS ∧
    (loadNextFrame (frameSim false) none (openFailing threeFrames)).2.2.frameIndex = 1 ∧
    (loadNextFrame (frameSim false) none (openFailing threeFrames)).2.2.inputter.pos = 14 ∧
    (loadNextFrame (frameSim false) none (openFailing threeFrames)).2.2.framePos =
      (openFailing threeFrames).framePos ∧
    (savePos (openFailing threeFrames) 1 0 4).framePos ≠ (openFailing threeFrames).framePos := by
  decide

/-- C12, amended. On a usable stream (`badFile` returns 0) positioned at
offset `p` with cursor `c`: when `reloadObjects` succeeds and leaves the
stream at offset `q`, `loadNextFrame` returns SUCCESS, the cursor becomes
`c + 1`, `(c + 1, p)` is offered to the cache with confidence 4 when the
position query succeeded at `p`, and then `(c + 2, q)` with confidence 1 when
it succeeded at `q`, and nothing else is offered; when `reloadObjects` fails,
`loadNextFrame` returns END_OF_FILE and neither the cursor nor the cache
changes. -/
theorem loadNextFrame_contract {σ : Type} (sim : Simul σ) (st : σ) (r : FrameReader)
    (p q : Nat) (hb : (badFile r.inputter).1 = 0) (hp : r.inputter.pos = p)
    (hq : (sim.reload st (badFile r.inputter).2).2.2.pos = q) :
    ((sim.reload st (badFile r.inputter).2).1 = 0 →
      (loadNextFrame sim st r).1 = SUCCESS ∧
      (loadNextFrame sim st r).2.1 = (sim.reload st (badFile r.inputter).2).2.1 ∧
      (loadNextFrame sim st r).2.2.frameIndex = r.frameIndex + 1 ∧
      (loadNextFrame sim st r).2.2.inputter.pos = q ∧
      (loadNextFrame sim st r).2.2.framePos =
        (if r.inputter.posFails q = true then
          (if r.inputter.posFails p = true then r else savePos r (r.frameIndex + 1) p 4)
        else
          savePos (if r.inputter.posFails p = true then r else savePos r (r.frameIndex + 1) p 4)
            (r.frameIndex + 2) q 1).framePos) ∧
    ((sim.reload st (badFile r.inputter).2).1 ≠ 0 →
      (loadNextFrame sim st r).1 = END_OF_FILE ∧
      (loadNextFrame sim st r).2.2.frameIndex = r.frameIndex ∧
      (loadNextFrame sim st r).2.2.framePos = r.framePos) := by
  obtain ⟨-, -, -, hsame, hpos⟩ := badFile_zero r.inputter hb
  have hnb : ¬ ((badFile r.inputter).1 ≠ 0) := fun h => h hb
  constructor
  · intro hres
    unfold loadNextFrame
    dsimp only
    rw [if_neg hnb, if_pos hres]
    dsimp only
    refine ⟨rfl, rfl, ?_, ?_, ?_⟩
    · rw [recordFrame_frameIndex]
    · rw [recordFrame_inputter]; exact hq
    · have hgp : (badFile r.inputter).2.get_pos =
          (if r.inputter.posFails p = true then none else some p) := by
        unfold Inputter.get_pos
        rw [hsame.2.1, hpos, hp]
      rw [hgp]
      have hpf : ({ r with inputter := (sim.reload st (badFile r.inputter).2).2.2,
                           frameIndex := r.frameIndex + 1 } : FrameReader).inputter.posFails =
          r.inputter.posFails := hsame.2.1
      have hrec := recordFrame_framePos
        { r with inputter := (sim.reload st (badFile r.inputter).2).2.2,
                 frameIndex := r.frameIndex + 1 } p q hq
      rw [hpf] at hrec
      rw [hrec]
      by_cases hpp : r.inputter.posFails p = true
      · simp only [if_pos hpp]
        by_cases hqq : r.inputter.posFails q = true
        · simp only [if_pos hqq]
        · simp only [if_neg hqq]
          exact savePos_framePos_congr _ _ _ _ _ rfl
      · simp only [if_neg hpp]
        by_cases hqq : r.inputter.posFails q = true
        · simp only [if_pos hqq]
          exact savePos_framePos_congr _ _ _ _ _ rfl
        · simp only [if_neg hqq]
          exact savePos_framePos_congr _ _ _ _ _ (savePos_framePos_congr _ _ _ _ _ rfl)
  · intro hres
    unfold loadNextFrame
    dsimp only
    rw [if_neg hnb, if_neg hres]
    exact ⟨rfl, rfl, rfl⟩

/-- C12 amended, at a concrete input: the first frame of the three-frame
stream, read from offset 0 up to offset 14. -/
theorem loadNextFrame_contract_witness :
    (badFile (openOn threeFrames).inputter).1 = 0 ∧
    (openOn threeFrames).inputter.pos = 0 ∧
    ((frameSim false).reload none (badFile (openOn threeFrames).inputter).2).2.2.pos = 14 ∧
    ((frameSim false).reload none (badFile (openOn threeFrames).inputter).2).1 = 0 ∧
    (loadNextFrame (frameSim false) none (openOn threeFrames)).1 = SUCCESS ∧
    (loadNextFrame (frameSim false) none (openOn threeFrames)).2.2.frameIndex = 1 :=
  ⟨by decide, by decide, by decide, by decide,
   ((loadNextFrame_contract (frameSim false) none (openOn threeFrames) 0 14
      (by decide) (by decide) (by decide)).1 (by decide)).1,
   ((loadNextFrame_contract (frameSim false) none (openOn threeFrames) 0 14
      (by decide) (by decide) (by decide)).1 (by decide)).2.2.1⟩

/-- The codes `loadNextFrame` returns. -/
theorem loadNextFrame_code {σ : Type} (sim : Simul σ) (st : σ) (r : FrameReader) :
    (loadNextFrame sim st r).1 = SUCCESS ∨ (loadNextFrame sim st r).1 = END_OF_FILE ∨
    (loadNextFrame sim st r).1 = BAD_FILE := by
  unfold loadNextFrame
  dsimp only
  split
  · right; right; rfl
  · split
    · left; rfl
    · right; left; rfl

/-- The codes the general path of `loadFrame` returns. -/
theorem loadFrameSeek_code {σ : Type} (compat : Bool) (sim : Simul σ) (st : σ)
    (r : FrameReader) (frm : Nat) :
    (loadFrameSeek compat sim st r frm).1 = SUCCESS ∨
    (loadFrameSeek compat sim st r frm).1 = END_OF_FILE ∨
    (loadFrameSeek compat sim st r frm).1 = NOT_FOUND := by
  unfold loadFrameSeek
  dsimp only
  split
  · right; right; rfl
  · split
    · left; rfl
    · right; left; rfl

/-- The codes `loadFrame` returns: for every simulation they are among
SUCCESS, END_OF_FILE, NOT_FOUND and BAD_FILE. -/
theorem loadFrame_code {σ : Type} (compat : Bool) (sim : Simul σ) (st : σ)
    (r : FrameReader) (frm : Nat) (reload : Bool) :
    (loadFrame compat sim st r frm reload).1 = SUCCESS ∨
    (loadFrame compat sim st r frm reload).1 = END_OF_FILE ∨
    (loadFrame compat sim st r frm reload).1 = NOT_FOUND ∨
    (loadFrame compat sim st r frm reload).1 = BAD_FILE := by
  unfold loadFrame
  dsimp only
  split
  · right; right; right; rfl
  · split
    · left; rfl
    · split
      · rcases loadNextFrame_code sim st { r with inputter := (badFile r.inputter).2 } with
          h | h | h
        · left; exact h
        · right; left; exact h
        · right; right; right; exact h
      · rcases loadFrameSeek_code compat sim st { r with inputter := (badFile r.inputter).2 }
          frm with h | h | h
        · left; exact h
        · right; left; exact h
        · right; right; left; exact h

/-- C13, the code at a failing input: on the three-frame stream, with a
simulation that cannot read frame 2 and whose `reloadObjects` returns 7 on
failure, `loadFrame(3)` on the freshly opened reader returns SUCCESS, and
`loadLastFrame(sim, 1)` then returns 7, the value of `reloadObjects`, which is
none of SUCCESS, END_OF_FILE, NOT_FOUND and BAD_FILE. -/
theorem loadLastFrame_returns_raw_code :
    afterThird.1 = SUCCESS ∧
    (loadLastFrame false (faultySim false 14 7) 10 afterThird.2.1 afterThird.2.2 1).map
        (fun x => x.1) = some 7 ∧
    (7 : Int) ≠ SUCCESS ∧ (7 : Int) ≠ END_OF_FILE ∧ (7 : Int) ≠ NOT_FOUND ∧
    (7 : Int) ≠ BAD_FILE := by
  decide

/-- C17, the code at a failing input: on the three-frame stream, after
`loadFrame(1)` (SUCCESS) and `loadFrame(9)` (NOT_FOUND), the cursor is 1 and
the stream is at offset 39, the end of the file, not at offset 14 where frame
2 starts; `loadFrame(2)` then returns END_OF_FILE, with the cursor still at 1
and the simulation still holding the frame of offset 0. -/
theorem loadFrame_next_fails_after_failed_seek :
    afterFailedSeek.1 = NOT_FOUND ∧
    afterFailedSeek.2.2.frameIndex = 1 ∧
    afterFailedSeek.2.2.inputter.pos = 39 ∧
    (frameOffsets false threeFrames)[1]? = some 14 ∧
    (loadFrame false (frameSim false) afterFailedSeek.2.1 afterFailedSeek.2.2 2 false).1 =
      END_OF_FILE ∧
    (loadFrame false (frameSim false) afterFailedSeek.2.1
      afterFailedSeek.2.2 2 false).2.2.frameIndex = 1 ∧
    (loadFrame false (frameSim false) afterFailedSeek.2.1
      afterFailedSeek.2.2 2 false).2.1 = some 0 := by
  decide

/-- C19, the code at a failing input: on the three-frame stream, whose frames
start at offsets 0, 14 and 28, after `loadFrame(1)` and `loadLastFrame(sim, 0)`
the cache holds offset 0 for frame 2 and offset 14 for frame 3, both with
confidence 4. -/
theorem loadLastFrame_shifts_confirmed_entries :
    frameOffsets false threeFrames = [0, 14, 28] ∧
    afterFirst.1 = SUCCESS ∧
    (loadLastFrame false (frameSim false) 10 afterFirst.2.1 afterFirst.2.2 0).map
        (fun x => (x.1, x.2.2.framePos[2]?, x.2.2.framePos[3]?)) =
      some (SUCCESS, some ⟨4, 0⟩, some ⟨4, 14⟩) := by
  decide


/-! ## The rounds of the forward scan -/

theorem cacheStep_refl (r : FrameReader) : CacheStep r r := ⟨rfl, le_refl _, Or.inl rfl⟩

theorem cacheStep_trans {a b c : FrameReader} (h1 : CacheStep a b) (h2 : CacheStep b c) :
    CacheStep a c := by
  refine ⟨h2.1.trans h1.1, le_trans h1.2.1 h2.2.1, ?_⟩
  rcases h2.2.2 with h | h
  · rcases h1.2.2 with g | g
    · left; rw [h, g]
    · right; rw [h]; exact g
  · right; exact h

theorem cacheStep_of_eq (r r' : FrameReader) (h1 : r'.inputter.isOpen = r.inputter.isOpen)
    (h2 : r'.framePos = r.framePos) : CacheStep r r' :=
  ⟨h1, by rw [h2], Or.inl h2⟩

theorem cacheInit_step {r r' : FrameReader} (h : CacheInit r) (hs : CacheStep r r') :
    CacheInit r' := by
  rcases h with ⟨h1, h2⟩ | h
  · rcases hs.2.2 with g | g
    · left; exact ⟨by rw [g, h1], by rw [hs.1, h2]⟩
    · right; exact g
  · right; exact le_trans h hs.2.1

theorem cacheStep_savePos (r : FrameReader) (frm pos : Nat) (c : Int) :
    CacheStep r (savePos r frm pos c) := by
  refine ⟨by rw [savePos_inputter], savePos_length_ge r frm pos c, ?_⟩
  rcases Nat.eq_zero_or_pos frm with h | h
  · left; rw [h, savePos_zero]
  · right; rw [savePos_length r frm pos c h]; omega

theorem cacheStep_scanFrames (compat : Bool) (frm : Nat) :
    ∀ (fuel inx : Nat) (r : FrameReader), CacheStep r (scanFrames compat frm fuel inx r).2 := by
  intro fuel
  induction fuel with
  | zero => intro inx r; exact cacheStep_refl r
  | succ n ih =>
    intro inx r
    have hsame := sameFile_nextTagLine compat (r.inputter.data.length + 1) r.inputter
    have h1 : CacheStep r
        { r with inputter := (nextTagLine compat (r.inputter.data.length + 1) r.inputter).2.2 } :=
      cacheStep_of_eq _ _ hsame.2.2.1 rfl
    rw [scanFrames_succ]
    dsimp only
    split
    · exact cacheStep_refl r
    · split
      · exact h1
      · split
        · have h2 : CacheStep r
              (match (nextTagLine compat (r.inputter.data.length + 1) r.inputter).2.1 with
                | some p =>
                  savePos
                    { r with
                      inputter :=
                        (nextTagLine compat (r.inputter.data.length + 1) r.inputter).2.2 }
                    inx p 2
                | none =>
                  { r with
                    inputter :=
                      (nextTagLine compat (r.inputter.data.length + 1) r.inputter).2.2 }) := by
            cases (nextTagLine compat (r.inputter.data.length + 1) r.inputter).2.1 with
            | none => exact h1
            | some p => exact cacheStep_trans h1 (cacheStep_savePos _ _ _ _)
          split
          · revert h2
            cases (nextTagLine compat (r.inputter.data.length + 1) r.inputter).2.1 with
            | none => intro h2; exact h2
            | some p =>
              intro h2
              exact cacheStep_trans h2 (cacheStep_of_eq _ _ rfl rfl)
          · exact cacheStep_trans h2 (ih _ _)
        · exact cacheStep_trans h1 (ih _ _)

theorem cacheStep_seekFrame (compat : Bool) (r : FrameReader) (frm : Nat) :
    CacheStep r (seekFrame compat r frm).2 := by
  have hs := seekPos_snd r frm
  have h1 : CacheStep r (seekPos r frm).2 := cacheStep_of_eq _ _ hs.2.2.2.1 hs.2.2.2.2.1
  unfold seekFrame
  dsimp only
  split
  · exact h1
  · exact cacheStep_trans h1 (cacheStep_scanFrames compat frm _ _ _)

theorem cacheStep_recordFrame (r : FrameReader) (pos : Option Nat) :
    CacheStep r (recordFrame r pos) := by
  unfold recordFrame
  dsimp only
  have h1 : CacheStep r (match pos with
      | some p => savePos r r.frameIndex p 4
      | none => r) := by
    cases pos with
    | none => exact cacheStep_refl r
    | some p => exact cacheStep_savePos _ _ _ _
  split
  · exact cacheStep_trans h1 (cacheStep_savePos _ _ _ _)
  · exact h1

theorem badFile_isOpen (s : Inputter) : (badFile s).2.isOpen = s.isOpen := by
  unfold badFile
  split
  · rfl
  · split
    · split <;> rfl
    · split <;> rfl

theorem cacheStep_loadNextFrame {σ : Type} (sim : Simul σ) (st : σ) (r : FrameReader) :
    CacheStep r (loadNextFrame sim st r).2.2 := by
  have h0 : CacheStep r { r with inputter := (badFile r.inputter).2 } :=
    cacheStep_of_eq _ _ (badFile_isOpen _) rfl
  unfold loadNextFrame
  dsimp only
  split
  · exact h0
  · split
    · exact cacheStep_trans
        (cacheStep_of_eq r
          { r with inputter := (sim.reload st (badFile r.inputter).2).2.2,
                   frameIndex := r.frameIndex + 1 }
          (badFile_isOpen _) rfl)
        (cacheStep_recordFrame _ _)
    · exact cacheStep_of_eq _ _ (badFile_isOpen _) rfl

theorem cacheStep_loadFrameSeek {σ : Type} (compat : Bool) (sim : Simul σ) (st : σ)
    (r : FrameReader) (frm : Nat) : CacheStep r (loadFrameSeek compat sim st r frm).2.2 := by
  have h0 := cacheStep_seekFrame compat r frm
  unfold loadFrameSeek
  dsimp only
  split
  · exact h0
  · split
    · exact cacheStep_trans
        (cacheStep_trans h0
          (cacheStep_of_eq (seekFrame compat r frm).2
            { (seekFrame compat r frm).2 with
              inputter := (sim.reload st (seekFrame compat r frm).2.inputter).2.2,
              frameIndex := frm }
            rfl rfl))
        (cacheStep_recordFrame _ _)
    · exact cacheStep_trans h0 (cacheStep_of_eq _ _ rfl rfl)

theorem cacheStep_loadFrame {σ : Type} (compat : Bool) (sim : Simul σ) (st : σ)
    (r : FrameReader) (frm : Nat) (reload : Bool) :
    CacheStep r (loadFrame compat sim st r frm reload).2.2 := by
  have h0 : CacheStep r { r with inputter := (badFile r.inputter).2 } :=
    cacheStep_of_eq _ _ (badFile_isOpen _) rfl
  unfold loadFrame
  dsimp only
  split
  · exact h0
  · split
    · exact h0
    · split
      · exact cacheStep_trans h0 (cacheStep_loadNextFrame sim st _)
      · exact cacheStep_trans h0 (cacheStep_loadFrameSeek compat sim st _ frm)

theorem tailLoop_succ {σ : Type} (sim : Simul σ) (fuel : Nat) (st : σ) (r : FrameReader)
    (res : Int) :
    tailLoop sim (fuel + 1) st r res =
      if (loadNextFrame sim st r).1 = SUCCESS then
        tailLoop sim fuel (loadNextFrame sim st r).2.1 (loadNextFrame sim st r).2.2 SUCCESS
      else some (res, (loadNextFrame sim st r).2.1, (loadNextFrame sim st r).2.2) := rfl

theorem cacheStep_tailLoop {σ : Type} (sim : Simul σ) :
    ∀ (fuel : Nat) (st : σ) (r : FrameReader) (res : Int) (out : Int × σ × FrameReader),
      tailLoop sim fuel st r res = some out → CacheStep r out.2.2 := by
  intro fuel
  induction fuel with
  | zero => intro st r res out h; exact absurd h (by simp [tailLoop])
  | succ n ih =>
    intro st r res out h
    rw [tailLoop_succ] at h
    split at h
    · exact cacheStep_trans (cacheStep_loadNextFrame sim st r) (ih _ _ _ _ h)
    · have : out = (res, (loadNextFrame sim st r).2.1, (loadNextFrame sim st r).2.2) :=
        (Option.some.inj h).symm
      rw [this]
      exact cacheStep_loadNextFrame sim st r

theorem cacheStep_catchUp {σ : Type} (compat : Bool) (sim : Simul σ) (frm cnt : Nat)
    (res : Int) (st : σ) (r : FrameReader) :
    CacheStep r (catchUp compat sim frm cnt res st r).2.2 := by
  unfold catchUp
  split
  · dsimp only
    split
    · exact cacheStep_seekFrame compat r _
    · split
      · exact cacheStep_trans (cacheStep_seekFrame compat r _) (cacheStep_of_eq _ _ rfl rfl)
      · exact cacheStep_trans (cacheStep_seekFrame compat r _) (cacheStep_of_eq _ _ rfl rfl)
  · exact cacheStep_refl r

theorem cacheStep_loadLastFrame {σ : Type} (compat : Bool) (sim : Simul σ) (fuel : Nat)
    (st : σ) (r : FrameReader) (cnt : Nat) (out : Int × σ × FrameReader)
    (h : loadLastFrame compat sim fuel st r cnt = some out) : CacheStep r out.2.2 := by
  have h0 : CacheStep r { r with inputter := (badFile r.inputter).2 } :=
    cacheStep_of_eq _ _ (badFile_isOpen _) rfl
  unfold loadLastFrame at h
  dsimp only at h
  split at h
  · rw [← Option.some.inj h]
    exact h0
  · split at h
    · exact absurd h (by simp)
    · rename_i frm hfrm
      split at h
      · exact absurd h (by simp)
      · rename_i out2 hout
        rw [← Option.some.inj h]
        have h1 := cacheStep_tailLoop sim fuel st _ NOT_FOUND out2 hout
        have h2 : CacheStep r
            { r with
              inputter :=
                (if frm > 0 then
                  (badFile r.inputter).2.set_pos
                    (positionAt r.framePos frm)
                else (badFile r.inputter).2.rewind),
              frameIndex := frm } := by
          refine cacheStep_of_eq _ _ ?_ rfl
          show (if frm > 0 then _ else _ : Inputter).isOpen = r.inputter.isOpen
          split
          · exact badFile_isOpen _
          · exact badFile_isOpen _
        exact cacheStep_trans (cacheStep_trans h2 h1) (cacheStep_catchUp compat sim frm cnt _ _ _)

theorem cacheStep_checkFile (r : FrameReader) : CacheStep r (checkFile r).2 := by
  unfold checkFile
  split
  · exact cacheStep_refl r
  · dsimp only
    split <;> split <;> exact cacheStep_of_eq _ _ rfl rfl

/-- Every state a reader can reach has an empty cache and no open stream, or
a cache with the two seeded entries at least. -/
theorem reachable_cacheInit (compat : Bool) (r : FrameReader) (h : Reachable compat r) :
    CacheInit r := by
  induction h with
  | created => left; exact ⟨rfl, rfl⟩
  | afterCheckFile r _ ih => exact cacheInit_step ih (cacheStep_checkFile r)
  | afterSavePos r frm pos c _ ih => exact cacheInit_step ih (cacheStep_savePos r frm pos c)
  | afterOpenFile r opened _ _ =>
    right
    unfold openFile
    dsimp only
    split
    · exact le_refl 2
    · split <;> exact le_refl 2
  | afterClear r _ _ => right; exact le_refl 2
  | afterClearPositions r _ _ => right; exact le_refl 2
  | afterSeekFrame r frm _ ih => exact cacheInit_step ih (cacheStep_seekFrame compat r frm)
  | afterLoadFrame sim st r frm reload _ ih =>
    exact cacheInit_step ih (cacheStep_loadFrame compat sim st r frm reload)
  | afterLoadNextFrame sim st r _ ih =>
    exact cacheInit_step ih (cacheStep_loadNextFrame sim st r)
  | afterLoadLastFrame sim fuel st r cnt out _ hout ih =>
    exact cacheInit_step ih (cacheStep_loadLastFrame compat sim fuel st r cnt out hout)

theorem seekPos_index_lt (r : FrameReader) (frm : Nat) (h : 2 ≤ r.framePos.length) :
    (seekPos r frm).1 < r.framePos.length := by
  have hle := (seekPosScan_spec r.framePos (min frm (r.framePos.length - 1))).1
  unfold seekPos
  dsimp only
  split
  · show 0 < r.framePos.length
    omega
  · split
    · show seekPosScan r.framePos (min frm (r.framePos.length - 1)) < r.framePos.length
      have := Nat.min_le_right frm (r.framePos.length - 1)
      omega
    · show 0 < r.framePos.length
      omega

theorem seekPos_empty (r : FrameReader) (frm : Nat) (h : r.framePos = []) :
    (seekPos r frm).1 = 0 := by
  unfold seekPos
  dsimp only
  rw [if_pos (Or.inr (by rw [h]; rfl))]

theorem lastKnownFrame_seeded (r : FrameReader) (h : 2 ≤ r.framePos.length) :
    ∃ res, lastKnownFrame r = some res ∧ res < r.framePos.length := by
  obtain ⟨res, h1, h2, _⟩ := lastKnownScan_spec r.framePos (r.framePos.length - 1) (by omega)
  refine ⟨res, ?_, by omega⟩
  unfold lastKnownFrame
  rw [if_neg (by omega)]
  exact h1

theorem loadLastFrame_closed {σ : Type} (compat : Bool) (sim : Simul σ) (fuel : Nat) (st : σ)
    (r : FrameReader) (cnt : Nat) (h : r.inputter.isOpen = false) :
    loadLastFrame compat sim fuel st r cnt = some (BAD_FILE, st, r) := by
  have hb : badFile r.inputter = (8, r.inputter) := by
    unfold badFile
    rw [if_pos (by show r.inputter.isOpen = false; exact h)]
  unfold loadLastFrame
  dsimp only
  rw [hb]
  rfl

/-- C20, counterexample. The freshly constructed reader is a reachable state
whose cache is empty: `lastKnownFrame` called on it starts from the wrapped
`size() - 1` and reads outside the vector. -/
theorem fresh_reader_cache_is_empty :
    Reachable false FrameReader.new ∧ FrameReader.new.framePos = [] ∧
      lastKnownFrame FrameReader.new = none := by
  refine ⟨Reachable.created, rfl, ?_⟩
  decide

/-- C20, amended. In every state reachable from the constructor the cache is
empty on a reader with no open stream, or holds the two seeded entries at
least. With an empty cache `seekPos` takes its guard and returns 0, and
`loadLastFrame` returns `BAD_FILE` with the reader untouched, before the cache
is read. With a seeded cache `lastKnownFrame` starts from `size() - 1` without
wrapping, reads inside the vector only and returns an index below the size,
and so does `seekPos` for every target. -/
theorem reachable_cache_seeded (compat : Bool) (r : FrameReader) (h : Reachable compat r) :
    ((r.framePos = [] ∧ r.inputter.file = false) ∨ 2 ≤ r.framePos.length) ∧
    (r.framePos = [] →
      (∀ frm, (seekPos r frm).1 = 0) ∧
      (∀ (σ : Type) (sim : Simul σ) (fuel : Nat) (st : σ) (cnt : Nat),
        loadLastFrame compat sim fuel st r cnt = some (BAD_FILE, st, r))) ∧
    (2 ≤ r.framePos.length →
      (∃ res, lastKnownFrame r = some res ∧ res < r.framePos.length) ∧
      (∀ frm, min frm (r.framePos.length - 1) < r.framePos.length ∧
        (seekPos r frm).1 < r.framePos.length)) := by
  have hinit := reachable_cacheInit compat r h
  refine ⟨hinit, ?_, ?_⟩
  · intro he
    have hclosed : r.inputter.isOpen = false := by
      rcases hinit with h1 | h1
      · exact h1.2
      · rw [he] at h1
        exact absurd h1 (by decide)
    exact ⟨fun frm => seekPos_empty r frm he,
      fun _ sim fuel st cnt => loadLastFrame_closed compat sim fuel st r cnt hclosed⟩
  · intro h2
    refine ⟨lastKnownFrame_seeded r h2, fun frm => ⟨?_, seekPos_index_lt r frm h2⟩⟩
    have := Nat.min_le_right frm (r.framePos.length - 1)
    omega

/-- C20, witness: the reader that has loaded the first of three frames. -/
theorem reachable_cache_seeded_witness :
    Reachable false afterFirst.2.2 ∧ 2 ≤ afterFirst.2.2.framePos.length ∧
      (∃ res, lastKnownFrame afterFirst.2.2 = some res ∧
        res < afterFirst.2.2.framePos.length) :=
  have ho : Reachable false (openOn threeFrames) :=
    Reachable.afterOpenFile FrameReader.new
      { data := threeFrames, isOpen := true, pos := 0, eofBit := false,
        errBit := false, posFails := fun _ => false }
      Reachable.created
  have hr : Reachable false afterFirst.2.2 :=
    Reachable.afterLoadFrame (frameSim false) none (openOn threeFrames) 1 false ho
  ⟨hr, by decide, ((reachable_cache_seeded false afterFirst.2.2 hr).2.2 (by decide)).1⟩


/-! ## The event scheduler -/

theorem binade_eq (x : ℚ) (e : ℤ) (hx : 0 < x) (h1 : (2 : ℚ) ^ e ≤ x)
    (h2 : x < (2 : ℚ) ^ (e + 1)) : Int.log 2 |x| = e := by
  rw [abs_of_pos hx]
  have ha : e ≤ Int.log 2 x := (Int.zpow_le_iff_le_log (by norm_num) hx).mp (by exact_mod_cast h1)
  have hb : Int.log 2 x < e + 1 :=
    (Int.lt_zpow_iff_log_lt (by norm_num) hx).mp (by exact_mod_cast h2)
  omega

theorem roundHalfEven_parts (q : ℚ) (f : ℤ) (r : ℚ) (hq : q = f + r) (h0 : 0 ≤ r)
    (h1 : r < 1) :
    roundHalfEven q =
      if r < 1 / 2 then f else if 1 / 2 < r then f + 1 else if f % 2 = 0 then f else f + 1 := by
  have hf : ⌊q⌋ = f := by
    rw [Int.floor_eq_iff]
    constructor <;> linarith
  have hr : q - (f : ℚ) = r := by linarith
  unfold roundHalfEven
  rw [hf, hr]

/-- The rounding of a positive number, from its binade and from the integer
part and the fraction of its quotient by the unit in the last place. -/
theorem round53_eq (x : ℚ) (e f : ℤ) (r : ℚ) (m : ℤ) (hx : 0 < x) (h1 : (2 : ℚ) ^ e ≤ x)
    (h2 : x < (2 : ℚ) ^ (e + 1)) (he : -1022 ≤ e) (hq : x / 2 ^ (e - 52) = f + r)
    (h0 : 0 ≤ r) (hr1 : r < 1)
    (hm : (if r < 1 / 2 then f else if 1 / 2 < r then f + 1
      else if f % 2 = 0 then f else f + 1) = m) :
    round53 x = (m : ℚ) * 2 ^ (e - 52) := by
  have hu : ulpExponent x = e - 52 := by
    unfold ulpExponent
    rw [binade_eq x e hx h1 h2, max_eq_left he]
  unfold round53
  rw [hu, roundHalfEven_parts _ f r hq h0 hr1, hm]

/-- A positive number with at most 53 significant bits is not changed by the
rounding. -/
theorem round53_exact (x : ℚ) (e m : ℤ) (hx : 0 < x) (h1 : (2 : ℚ) ^ e ≤ x)
    (h2 : x < (2 : ℚ) ^ (e + 1)) (he : -1022 ≤ e) (hm : x = (m : ℚ) * 2 ^ (e - 52)) :
    round53 x = x := by
  have hq : x / 2 ^ (e - 52) = (m : ℚ) + 0 := by
    rw [hm]
    field_simp
  rw [round53_eq x e m 0 m hx h1 h2 he hq (le_refl 0) (by norm_num) (by norm_num)]
  exact hm.symm

/-- The integers from 1 to 6 are binary64 numbers. -/
theorem round53_small :
    round53 1 = 1 ∧ round53 2 = 2 ∧ round53 3 = 3 ∧ round53 4 = 4 ∧ round53 5 = 5 ∧
    round53 6 = 6 := by
  refine ⟨?_, ?_, ?_, ?_, ?_, ?_⟩
  · apply round53_exact 1 0 (2 ^ 52) <;> norm_num
  · apply round53_exact 2 1 (2 ^ 52) <;> norm_num
  · apply round53_exact 3 1 (3 * 2 ^ 51) <;> norm_num
  · apply round53_exact 4 2 (2 ^ 52) <;> norm_num
  · apply round53_exact 5 2 (5 * 2 ^ 50) <;> norm_num
  · apply round53_exact 6 2 (3 * 2 ^ 51) <;> norm_num

/-- One half is a binary64 number. -/
theorem round53_half : round53 (1 / 2) = 1 / 2 := by
  apply round53_exact (1 / 2) (-1) (2 ^ 52) <;> norm_num

/-- In binary64 the sum of 2^53 and 1 is 2^53: the tie goes to the even
neighbour. -/
theorem round53_absorbs : round53 (9007199254740992 + 1) = 9007199254740992 := by
  have h := round53_eq (9007199254740992 + 1) 53 4503599627370496 (1 / 2) 4503599627370496
    (by norm_num) (by norm_num) (by norm_num) (by norm_num) (by norm_num) (by norm_num)
    (by norm_num) (by norm_num)
  rw [h]
  norm_num

theorem Event.reset_fixed (ops : RealOps) (e : Event) (time sample : ℚ) (hr : e.rate = 0) :
    e.reset ops time sample = { e with nextTime := ops.add time e.delay } := by
  unfold Event.reset
  rw [if_neg (by rw [hr]; exact lt_irrefl 0)]

theorem Event.reset_rate (ops : RealOps) (e : Event) (time sample : ℚ) :
    (e.reset ops time sample).rate = e.rate := by
  unfold Event.reset
  split <;> rfl

theorem Event.reset_delay (ops : RealOps) (e : Event) (time sample : ℚ) :
    (e.reset ops time sample).delay = e.delay := by
  unfold Event.reset
  split <;> rfl

theorem Event.reset_activity (ops : RealOps) (e : Event) (time sample : ℚ) :
    (e.reset ops time sample).activity = e.activity := by
  unfold Event.reset
  split <;> rfl

theorem Event.stepLoop_succ {σ : Type} (ops : RealOps) (w : World σ) (rng : Nat → ℚ)
    (fuel n : Nat) (e : Event) (s : σ) :
    Event.stepLoop ops w rng (fuel + 1) n e s =
      if w.time (w.evaluate (e.reset ops e.nextTime (rng n)).activity s) >
          (e.reset ops e.nextTime (rng n)).nextTime then
        Event.stepLoop ops w rng fuel (n + 1) (e.reset ops e.nextTime (rng n))
          (w.evaluate (e.reset ops e.nextTime (rng n)).activity s)
      else some (e.reset ops e.nextTime (rng n),
        w.evaluate (e.reset ops e.nextTime (rng n)).activity s, n + 1) := rfl

theorem Event.schedule_shift (ops : RealOps) (e : Event) (j : Nat) :
    Event.schedule ops { e with nextTime := ops.add e.nextTime e.delay } j =
      Event.schedule ops e (j + 1) := by
  induction j with
  | zero => rfl
  | succ j ih =>
    show ops.add (Event.schedule ops { e with nextTime := ops.add e.nextTime e.delay } j) e.delay =
      ops.add (Event.schedule ops e (j + 1)) e.delay
    rw [ih]

/-- When the first `k` sums are exact, the schedule is the arithmetic
progression. -/
theorem Event.schedule_exact (ops : RealOps) (e : Event) (k : Nat)
    (h : ∀ j : Nat, j < k →
      ops.add (e.nextTime + j * e.delay) e.delay = e.nextTime + ((j + 1 : Nat) : ℚ) * e.delay) :
    ∀ j : Nat, j ≤ k → Event.schedule ops e j = e.nextTime + j * e.delay := by
  intro j
  induction j with
  | zero => intro _; simp [Event.schedule]
  | succ j ih =>
    intro hj
    show ops.add (Event.schedule ops e j) e.delay = _
    rw [ih (by omega), h j (by omega)]

/-- The loop of `step` for an event with `rate = 0`: when the `k`-th rounded
sum is the first to reach the clock, `k` rounds are made. -/
theorem Event.stepLoop_rounds {σ : Type} (ops : RealOps) (w : World σ) (rng : Nat → ℚ) :
    ∀ (k : Nat), 1 ≤ k → ∀ (fuel n : Nat) (e : Event) (s : σ),
      e.rate = 0 → (∀ x, w.time (w.evaluate e.activity x) = w.time x) → k ≤ fuel →
      (∀ j : Nat, 1 ≤ j → j < k → Event.schedule ops e j < w.time s) →
      w.time s ≤ Event.schedule ops e k →
      Event.stepLoop ops w rng fuel n e s =
        some ({ e with nextTime := Event.schedule ops e k },
          (w.evaluate e.activity)^[k] s, n + k) := by
  intro k
  induction k with
  | zero => intro h; omega
  | succ k ih =>
    intro _ fuel n e s hr hact hf hlt hge
    obtain ⟨f, rfl⟩ : ∃ f, fuel = f + 1 := ⟨fuel - 1, by omega⟩
    have hreset : e.reset ops e.nextTime (rng n) =
        { e with nextTime := ops.add e.nextTime e.delay } :=
      Event.reset_fixed ops e _ _ hr
    rw [Event.stepLoop_succ, hreset]
    dsimp only
    rw [hact]
    rcases Nat.eq_zero_or_pos k with hk | hk
    · subst hk
      have hge1 : w.time s ≤ ops.add e.nextTime e.delay := hge
      rw [if_neg (not_lt.mpr hge1)]
      rfl
    · have h1a : ops.add e.nextTime e.delay < w.time s := hlt 1 (le_refl 1) (by omega)
      rw [if_pos h1a]
      rw [ih hk f (n + 1) { e with nextTime := ops.add e.nextTime e.delay }
        (w.evaluate e.activity s) hr hact (by omega) ?_ ?_]
      · have e2 : n + 1 + k = n + (k + 1) := by omega
        show some ({ e with
            nextTime :=
              Event.schedule ops { e with nextTime := ops.add e.nextTime e.delay } k },
          (w.evaluate e.activity)^[k] (w.evaluate e.activity s), n + 1 + k) = _
        rw [Event.schedule_shift, e2, Function.iterate_succ_apply]
      · intro j hj1 hj2
        rw [hact, Event.schedule_shift]
        exact hlt (j + 1) (by omega) (by omega)
      · rw [hact, Event.schedule_shift]
        exact hge

/-- The loop of `step` for an event with `rate = 0` does not end when no
rounded sum reaches the clock. -/
theorem Event.stepLoop_never {σ : Type} (ops : RealOps) (w : World σ) (rng : Nat → ℚ) :
    ∀ (fuel n : Nat) (e : Event) (s : σ),
      e.rate = 0 → (∀ x, w.time (w.evaluate e.activity x) = w.time x) →
      (∀ j : Nat, 1 ≤ j → Event.schedule ops e j < w.time s) →
      Event.stepLoop ops w rng fuel n e s = none := by
  intro fuel
  induction fuel with
  | zero => intro n e s _ _ _; rfl
  | succ f ih =>
    intro n e s hr hact hlt
    have hreset : e.reset ops e.nextTime (rng n) =
        { e with nextTime := ops.add e.nextTime e.delay } :=
      Event.reset_fixed ops e _ _ hr
    rw [Event.stepLoop_succ, hreset]
    dsimp only
    rw [hact]
    have h1a : ops.add e.nextTime e.delay < w.time s := hlt 1 (le_refl 1)
    rw [if_pos h1a]
    apply ih (n + 1) { e with nextTime := ops.add e.nextTime e.delay } _ hr hact
    intro j hj
    rw [hact, Event.schedule_shift]
    exact hlt (j + 1) (by omega)

/-- One call of `step` when the `k`-th rounded sum is the first to reach the
clock. -/
theorem Event.step_rounds {σ : Type} (ops : RealOps) (w : World σ) (rng : Nat → ℚ)
    (e : Event) (s : σ) (hr : e.rate = 0)
    (hact : ∀ x, w.time (w.evaluate e.activity x) = w.time x) (k : Nat) (hk : 1 ≤ k)
    (hnow : e.nextTime < w.time s)
    (hlt : ∀ j : Nat, 1 ≤ j → j < k → Event.schedule ops e j < w.time s)
    (hge : w.time s ≤ Event.schedule ops e k) (fuel : Nat) (hf : k ≤ fuel) :
    Event.step ops w rng fuel e s =
      some ({ e with nextTime := Event.schedule ops e k },
        w.unrelax ((w.evaluate e.activity)^[k] (w.relax s)), k) := by
  have hloop := Event.stepLoop_rounds ops w rng k hk fuel 0 e (w.relax s) hr hact hf
    (by rw [w.relax_time]; exact hlt) (by rw [w.relax_time]; exact hge)
  unfold Event.step
  rw [if_pos hnow, hloop]
  show some (_, _, 0 + k) = some (_, _, k)
  rw [Nat.zero_add]

/-- One call of `step` when no rounded sum reaches the clock. -/
theorem Event.step_never {σ : Type} (ops : RealOps) (w : World σ) (rng : Nat → ℚ)
    (e : Event) (s : σ) (hr : e.rate = 0)
    (hact : ∀ x, w.time (w.evaluate e.activity x) = w.time x)
    (hnow : e.nextTime < w.time s)
    (hlt : ∀ j : Nat, 1 ≤ j → Event.schedule ops e j < w.time s) (fuel : Nat) :
    Event.step ops w rng fuel e s = none := by
  have hloop := Event.stepLoop_never ops w rng fuel 0 e (w.relax s) hr hact
    (by rw [w.relax_time]; exact hlt)
  unfold Event.step
  rw [if_pos hnow, hloop]

/-- A positive delay reaches every clock value: there is a least positive
number of delays. -/
theorem exists_least_rounds (t0 t d : ℚ) (hd : 0 < d) :
    ∃ k : Nat, 1 ≤ k ∧ t ≤ t0 + k * d ∧ ∀ j : Nat, 1 ≤ j → j < k → t0 + j * d < t := by
  have hex : ∃ k : Nat, 1 ≤ k ∧ t ≤ t0 + k * d := by
    obtain ⟨n, hn⟩ := exists_nat_ge ((t - t0) / d)
    refine ⟨n + 1, by omega, ?_⟩
    have h1 : t - t0 ≤ n * d := (div_le_iff₀ hd).mp hn
    push_cast
    nlinarith
  classical
  refine ⟨Nat.find hex, (Nat.find_spec hex).1, (Nat.find_spec hex).2, ?_⟩
  intro j hj1 hj2
  have := Nat.find_min hex hj2
  by_contra hcon
  exact this ⟨hj1, not_lt.mp hcon⟩

/-- The constructor in closed form: what is built from the configured
values, with `delay` read only when `rate` is absent. -/
theorem Event.create_eq (ops : RealOps) (raw : Event) (time : ℚ) (opt : Glossary)
    (sample : ℚ) :
    Event.create ops raw time opt sample =
      (if (opt.real "rate").getD 0 < 0 then Except.error rateMessage
       else if (if (opt.real "rate").isSome then 0 else (opt.real "delay").getD 0) < 0 then
         Except.error delayMessage
       else Except.ok
         (Event.reset ops
           { activity := ((opt.text "activity").orElse fun _ => opt.text "code").getD "",
             delay := if (opt.real "rate").isSome then 0 else (opt.real "delay").getD 0,
             rate := (opt.real "rate").getD 0,
             nextTime := 0 }
           time sample)) := by
  unfold Event.create Glossary.setReal Glossary.setText Event.clear
  cases opt.real "rate" <;> cases opt.real "delay" <;> cases opt.text "activity" <;>
    cases opt.text "code" <;> simp

theorem config_rate (rate delay : Option ℚ) : (config rate delay).real "rate" = rate := rfl

theorem config_delay (rate delay : Option ℚ) : (config rate delay).real "delay" = delay := by
  show (if "delay" = "rate" then rate else if "delay" = "delay" then delay else none) = delay
  rw [if_neg (by decide), if_pos rfl]

theorem World.iterate_time {σ : Type} (w : World σ) (a : String)
    (hact : ∀ x, w.time (w.evaluate a x) = w.time x) (k : Nat) (x : σ) :
    w.time ((w.evaluate a)^[k] x) = w.time x := by
  induction k with
  | zero => rfl
  | succ k ih => rw [Function.iterate_succ_apply', hact, ih]

/-- The sums of the loop of `step` in binary64, from 0.1 by steps of 0.1:
the seventh is below 0.8 and the eighth above. -/
theorem tenth_schedule :
    Event.schedule binary64 ⟨"", tenth, 0, tenth⟩ 1 = 3602879701896397 / 18014398509481984 ∧
    Event.schedule binary64 ⟨"", tenth, 0, tenth⟩ 2 = 1351079888211149 / 4503599627370496 ∧
    Event.schedule binary64 ⟨"", tenth, 0, tenth⟩ 3 = 3602879701896397 / 9007199254740992 ∧
    Event.schedule binary64 ⟨"", tenth, 0, tenth⟩ 4 = 1 / 2 ∧
    Event.schedule binary64 ⟨"", tenth, 0, tenth⟩ 5 = 5404319552844595 / 9007199254740992 ∧
    Event.schedule binary64 ⟨"", tenth, 0, tenth⟩ 6 = 3152519739159347 / 4503599627370496 ∧
    Event.schedule binary64 ⟨"", tenth, 0, tenth⟩ 7 = 7205759403792793 / 9007199254740992 ∧
    Event.schedule binary64 ⟨"", tenth, 0, tenth⟩ 8 = 2026619832316723 / 2251799813685248 := by
  have h1 : Event.schedule binary64 ⟨"", tenth, 0, tenth⟩ 1 = 3602879701896397 / 18014398509481984 := by
    show round53 (Event.schedule binary64 ⟨"", tenth, 0, tenth⟩ 0 + tenth) = _
    have h0 : Event.schedule binary64 ⟨"", tenth, 0, tenth⟩ 0 = tenth := rfl
    rw [h0]
    have hs : tenth + tenth = 3602879701896397 / 18014398509481984 := by
      unfold tenth; norm_num
    rw [hs]
    have hr := round53_eq (3602879701896397 / 18014398509481984) (-3) 7205759403792794 (0 / 1) 7205759403792794
      (by norm_num) (by norm_num) (by norm_num) (by norm_num) (by norm_num) (by norm_num)
      (by norm_num) (by norm_num)
    rw [hr]
    norm_num
  have h2 : Event.schedule binary64 ⟨"", tenth, 0, tenth⟩ 2 = 1351079888211149 / 4503599627370496 := by
    show round53 (Event.schedule binary64 ⟨"", tenth, 0, tenth⟩ 1 + tenth) = _
    rw [h1]
    have hs : (3602879701896397 / 18014398509481984 : ℚ) + tenth = 10808639105689191 / 36028797018963968 := by
      unfold tenth; norm_num
    rw [hs]
    have hr := round53_eq (10808639105689191 / 36028797018963968) (-2) 5404319552844595 (1 / 2) 5404319552844596
      (by norm_num) (by norm_num) (by norm_num) (by norm_num) (by norm_num) (by norm_num)
      (by norm_num) (by norm_num)
    rw [hr]
    norm_num
  have h3 : Event.schedule binary64 ⟨"", tenth, 0, tenth⟩ 3 = 3602879701896397 / 9007199254740992 := by
    show round53 (Event.schedule binary64 ⟨"", tenth, 0, tenth⟩ 2 + tenth) = _
    rw [h2]
    have hs : (1351079888211149 / 4503599627370496 : ℚ) + tenth = 14411518807585589 / 36028797018963968 := by
      unfold tenth; norm_num
    rw [hs]
    have hr := round53_eq (14411518807585589 / 36028797018963968) (-2) 7205759403792794 (1 / 2) 7205759403792794
      (by norm_num) (by norm_num) (by norm_num) (by norm_num) (by norm_num) (by norm_num)
      (by norm_num) (by norm_num)
    rw [hr]
    norm_num
  have h4 : Event.schedule binary64 ⟨"", tenth, 0, tenth⟩ 4 = 1 / 2 := by
    show round53 (Event.schedule binary64 ⟨"", tenth, 0, tenth⟩ 3 + tenth) = _
    rw [h3]
    have hs : (3602879701896397 / 9007199254740992 : ℚ) + tenth = 18014398509481985 / 36028797018963968 := by
      unfold tenth; norm_num
    rw [hs]
    have hr := round53_eq (18014398509481985 / 36028797018963968) (-1) 4503599627370496 (1 / 4) 4503599627370496
      (by norm_num) (by norm_num) (by norm_num) (by norm_num) (by norm_num) (by norm_num)
      (by norm_num) (by norm_num)
    rw [hr]
    norm_num
  have h5 : Event.schedule binary64 ⟨"", tenth, 0, tenth⟩ 5 = 5404319552844595 / 9007199254740992 := by
    show round53 (Event.schedule binary64 ⟨"", tenth, 0, tenth⟩ 4 + tenth) = _
    rw [h4]
    have hs : (1 / 2 : ℚ) + tenth = 21617278211378381 / 36028797018963968 := by
      unfold tenth; norm_num
    rw [hs]
    have hr := round53_eq (21617278211378381 / 36028797018963968) (-1) 5404319552844595 (1 / 4) 5404319552844595
      (by norm_num) (by norm_num) (by norm_num) (by norm_num) (by norm_num) (by norm_num)
      (by norm_num) (by norm_num)
    rw [hr]
    norm_num
  have h6 : Event.schedule binary64 ⟨"", tenth, 0, tenth⟩ 6 = 3152519739159347 / 4503599627370496 := by
    show round53 (Event.schedule binary64 ⟨"", tenth, 0, tenth⟩ 5 + tenth) = _
    rw [h5]
    have hs : (5404319552844595 / 9007199254740992 : ℚ) + tenth = 25220157913274777 / 36028797018963968 := by
      unfold tenth; norm_num
    rw [hs]
    have hr := round53_eq (25220157913274777 / 36028797018963968) (-1) 6305039478318694 (1 / 4) 6305039478318694
      (by norm_num) (by norm_num) (by norm_num) (by norm_num) (by norm_num) (by norm_num)
      (by norm_num) (by norm_num)
    rw [hr]
    norm_num
  have h7 : Event.schedule binary64 ⟨"", tenth, 0, tenth⟩ 7 = 7205759403792793 / 9007199254740992 := by
    show round53 (Event.schedule binary64 ⟨"", tenth, 0, tenth⟩ 6 + tenth) = _
    rw [h6]
    have hs : (3152519739159347 / 4503599627370496 : ℚ) + tenth = 28823037615171173 / 36028797018963968 := by
      unfold tenth; norm_num
    rw [hs]
    have hr := round53_eq (28823037615171173 / 36028797018963968) (-1) 7205759403792793 (1 / 4) 7205759403792793
      (by norm_num) (by norm_num) (by norm_num) (by norm_num) (by norm_num) (by norm_num)
      (by norm_num) (by norm_num)
    rw [hr]
    norm_num
  have h8 : Event.schedule binary64 ⟨"", tenth, 0, tenth⟩ 8 = 2026619832316723 / 2251799813685248 := by
    show round53 (Event.schedule binary64 ⟨"", tenth, 0, tenth⟩ 7 + tenth) = _
    rw [h7]
    have hs : (7205759403792793 / 9007199254740992 : ℚ) + tenth = 32425917317067569 / 36028797018963968 := by
      unfold tenth; norm_num
    rw [hs]
    have hr := round53_eq (32425917317067569 / 36028797018963968) (-1) 8106479329266892 (1 / 4) 8106479329266892
      (by norm_num) (by norm_num) (by norm_num) (by norm_num) (by norm_num) (by norm_num)
      (by norm_num) (by norm_num)
    rw [hr]
    norm_num
  exact ⟨h1, h2, h3, h4, h5, h6, h7, h8⟩

/-- The sums of the loop of `step` in binary64, from 1 by steps of 1. -/
theorem unit_schedule :
    Event.schedule binary64 ⟨"", 1, 0, 1⟩ 1 = 2 ∧
    Event.schedule binary64 ⟨"", 1, 0, 1⟩ 2 = 3 ∧
    Event.schedule binary64 ⟨"", 1, 0, 1⟩ 3 = 4 ∧
    Event.schedule binary64 ⟨"", 1, 0, 1⟩ 4 = 5 := by
  have h1 : Event.schedule binary64 ⟨"", 1, 0, 1⟩ 1 = 2 := by
    show round53 (1 + 1) = 2
    rw [show (1 + 1 : ℚ) = 2 by norm_num]
    exact round53_small.2.1
  have h2 : Event.schedule binary64 ⟨"", 1, 0, 1⟩ 2 = 3 := by
    show round53 (Event.schedule binary64 ⟨"", 1, 0, 1⟩ 1 + 1) = 3
    rw [h1, show (2 + 1 : ℚ) = 3 by norm_num]
    exact round53_small.2.2.1
  have h3 : Event.schedule binary64 ⟨"", 1, 0, 1⟩ 3 = 4 := by
    show round53 (Event.schedule binary64 ⟨"", 1, 0, 1⟩ 2 + 1) = 4
    rw [h2, show (3 + 1 : ℚ) = 4 by norm_num]
    exact round53_small.2.2.2.1
  have h4 : Event.schedule binary64 ⟨"", 1, 0, 1⟩ 4 = 5 := by
    show round53 (Event.schedule binary64 ⟨"", 1, 0, 1⟩ 3 + 1) = 5
    rw [h3, show (4 + 1 : ℚ) = 5 by norm_num]
    exact round53_small.2.2.2.2.1
  exact ⟨h1, h2, h3, h4⟩

/-- In binary64 the sums from 2^53 by steps of 1 stay at 2^53. -/
theorem absorbed_schedule (j : Nat) :
    Event.schedule binary64 ⟨"", 1, 0, 9007199254740992⟩ j = 9007199254740992 := by
  induction j with
  | zero => rfl
  | succ j ih =>
    show round53 (Event.schedule binary64 ⟨"", 1, 0, 9007199254740992⟩ j + 1) = _
    rw [ih]
    exact round53_absorbs

/-- The event made in binary64 at time 0 from a configuration with a delay
alone, when the delay is a small integer. -/
theorem Event.create_delay_one :
    Event.create binary64 ⟨"", 0, 0, 0⟩ 0 (config none (some 1)) 0 = Except.ok ⟨"", 1, 0, 1⟩ := by
  rw [Event.create_eq, config_rate, config_delay]
  norm_num [Event.reset, config, binary64, round53_small.1]

/-- The event made in binary64 at time 0 with `delay = 2`. -/
theorem Event.create_delay_two :
    Event.create binary64 ⟨"", 0, 0, 0⟩ 0 (config none (some 2)) 0 = Except.ok ⟨"", 2, 0, 2⟩ := by
  rw [Event.create_eq, config_rate, config_delay]
  norm_num [Event.reset, config, binary64, round53_small.2.1]

/-- C14, counterexample. A configuration with `rate = 1` and `delay = -1`
makes an event: the key `delay` is not read when `rate` is present, and the
delay of the event is 0, not the configured value. The arithmetic is that of
binary64, where the sums and the quotient made here are exact. -/
theorem Event_create_ignores_delay_when_rate_given :
    (config (some 1) (some (-1))).real "rate" = some 1 ∧
    (config (some 1) (some (-1))).real "delay" = some (-1) ∧
    Event.create binary64 ⟨"", 0, 0, 0⟩ 0 (config (some 1) (some (-1))) (1 / 2) =
      Except.ok ⟨"", 0, 1, 1 / 2⟩ := by
  refine ⟨by decide, by decide, ?_⟩
  rw [Event.create_eq, config_rate, config_delay]
  have h1 : round53 (1 / 2 / 1) = 1 / 2 := by
    rw [show (1 / 2 / 1 : ℚ) = 1 / 2 by norm_num]
    exact round53_half
  have h2 : round53 (0 + 1 / 2) = 1 / 2 := by
    rw [show (0 + 1 / 2 : ℚ) = 1 / 2 by norm_num]
    exact round53_half
  have hreset : Event.reset binary64 ⟨"", 0, 1, 0⟩ 0 (1 / 2) = ⟨"", 0, 1, 1 / 2⟩ := by
    unfold Event.reset
    rw [if_pos (by norm_num)]
    show ({ activity := "", delay := 0, rate := 1,
            nextTime := round53 (0 + round53 (1 / 2 / 1)) } : Event) = _
    rw [h1, h2]
  have hcfg : ((config (some 1) (some (-1))).text "activity").orElse
      (fun _ => (config (some 1) (some (-1))).text "code") = none := rfl
  rw [hcfg]
  simp only [Option.getD_some, Option.isSome_some, if_true, Option.getD_none]
  rw [if_neg (by norm_num), if_neg (by norm_num)]
  exact congrArg Except.ok hreset

/-- C14, amended. For every configuration source and every arithmetic of
`real`, `delay` is read only when the key `rate` is absent. With `rate` the
configured rate (0 when absent) and `delay` the configured delay when `rate`
is absent (0 when `rate` is present or `delay` is absent too), construction
fails with the message for the rate when `rate < 0`, else with the message for
the delay when `delay < 0`, and succeeds otherwise with exactly these two
values, both at least 0. -/
theorem Event_create_validation (ops : RealOps) (raw : Event) (time : ℚ) (opt : Glossary)
    (sample : ℚ) :
    Event.create ops raw time opt sample =
      (if (opt.real "rate").getD 0 < 0 then Except.error rateMessage
       else if (if (opt.real "rate").isSome then 0 else (opt.real "delay").getD 0) < 0 then
         Except.error delayMessage
       else Except.ok
         (Event.reset ops
           { activity := ((opt.text "activity").orElse fun _ => opt.text "code").getD "",
             delay := if (opt.real "rate").isSome then 0 else (opt.real "delay").getD 0,
             rate := (opt.real "rate").getD 0,
             nextTime := 0 }
           time sample)) ∧
    (∀ e, Event.create ops raw time opt sample = Except.ok e →
      e.rate = (opt.real "rate").getD 0 ∧
      e.delay = (if (opt.real "rate").isSome then 0 else (opt.real "delay").getD 0) ∧
      0 ≤ e.rate ∧ 0 ≤ e.delay) := by
  have hform := Event.create_eq ops raw time opt sample
  refine ⟨hform, ?_⟩
  intro e he
  rw [hform] at he
  by_cases hrate : (opt.real "rate").getD 0 < 0
  · rw [if_pos hrate] at he
    exact absurd he (by simp)
  · by_cases hdelay : (if (opt.real "rate").isSome then 0 else (opt.real "delay").getD 0) < 0
    · rw [if_neg hrate, if_pos hdelay] at he
      exact absurd he (by simp)
    · rw [if_neg hrate, if_neg hdelay] at he
      have heq := (Except.ok.inj he).symm
      have hr : e.rate = (opt.real "rate").getD 0 := by
        rw [heq, Event.reset_rate]
      have hd : e.delay = (if (opt.real "rate").isSome then 0 else (opt.real "delay").getD 0) := by
        rw [heq, Event.reset_delay]
      exact ⟨hr, hd, by rw [hr]; exact not_lt.mp hrate, by rw [hd]; exact not_lt.mp hdelay⟩

/-- C15, counterexample. In binary64 an event with `delay = 1` made at time 0
has `nextTime = 1`; one `step` with the clock at 5 evaluates the activity 4
times, not 5, and returns with `nextTime = 5`, which is not above the
clock. -/
theorem Event_step_fires_four_times :
    Event.create binary64 ⟨"", 0, 0, 0⟩ 0 (config none (some 1)) 0 = Except.ok ⟨"", 1, 0, 1⟩ ∧
    Event.step binary64 (countingWorld 5) (fun _ => 0) 10 ⟨"", 1, 0, 1⟩ 0 =
      some (⟨"", 1, 0, 5⟩, 4, 4) ∧
    ¬ (⟨"", 1, 0, 5⟩ : Event).nextTime > (countingWorld 5).time 4 := by
  refine ⟨Event.create_delay_one, ?_, ?_⟩
  · have h := Event.step_rounds binary64 (countingWorld 5) (fun _ => 0) ⟨"", 1, 0, 1⟩ 0 rfl
      (fun _ => rfl) 4 (by decide) (by norm_num [countingWorld])
      (by
        intro j hj1 hj2
        show Event.schedule binary64 ⟨"", 1, 0, 1⟩ j < 5
        interval_cases j
        · rw [unit_schedule.1]; norm_num
        · rw [unit_schedule.2.1]; norm_num
        · rw [unit_schedule.2.2.1]; norm_num)
      (by
        show (5 : ℚ) ≤ Event.schedule binary64 ⟨"", 1, 0, 1⟩ 4
        rw [unit_schedule.2.2.2])
      10 (by decide)
    rw [h, unit_schedule.2.2.2]
    rfl
  · norm_num [countingWorld]

/-- C15, amended. Whatever the arithmetic of `real`, when the sums
`(t0 + j) + 1` for `j` from 0 to 4 are computed exactly: an event made at
clock time `t0` from a configuration with no `rate` and `delay = 1` has
`rate = 0`, `delay = 1` and `nextTime = t0 + 1`; and when no activity changes
the clock, one `step` with the clock at `t0 + 5` evaluates the activity
exactly 4 times and returns with `nextTime = t0 + 5`, equal to the clock: the
loop goes on while the clock is strictly above `nextTime`. -/
theorem Event_step_catch_up {σ : Type} (ops : RealOps) (w : World σ) (rng : Nat → ℚ)
    (raw : Event) (t0 : ℚ) (opt : Glossary) (sample : ℚ) (s : σ) (fuel : Nat)
    (hrate : opt.real "rate" = none) (hdelay : opt.real "delay" = some 1)
    (hact : ∀ a x, w.time (w.evaluate a x) = w.time x)
    (ht : w.time s = t0 + 5) (hf : 4 ≤ fuel)
    (hsum : ∀ j : Nat, j ≤ 4 → ops.add (t0 + j) 1 = t0 + (j + 1)) :
    ∃ e, Event.create ops raw t0 opt sample = Except.ok e ∧
      e.rate = 0 ∧ e.delay = 1 ∧ e.nextTime = t0 + 1 ∧
      Event.step ops w rng fuel e s =
        some ({ e with nextTime := t0 + 5 },
          w.unrelax ((w.evaluate e.activity)^[4] (w.relax s)), 4) ∧
      w.time (w.unrelax ((w.evaluate e.activity)^[4] (w.relax s))) = t0 + 5 := by
  have hform := Event.create_eq ops raw t0 opt sample
  rw [hrate, hdelay] at hform
  have h0 : ops.add t0 1 = t0 + 1 := by
    have := hsum 0 (by decide)
    simpa using this
  have hc : Event.create ops raw t0 opt sample =
      Except.ok
        { activity := ((opt.text "activity").orElse fun _ => opt.text "code").getD "",
          delay := 1, rate := 0, nextTime := t0 + 1 } := by
    rw [hform]
    simp [Event.reset, h0]
  have hsched : ∀ j : Nat, j ≤ 4 →
      Event.schedule ops
        { activity := ((opt.text "activity").orElse fun _ => opt.text "code").getD "",
          delay := 1, rate := 0, nextTime := t0 + 1 } j = t0 + 1 + j * 1 := by
    apply Event.schedule_exact
    intro j hj
    show ops.add (t0 + 1 + (j : ℚ) * 1) 1 = t0 + 1 + ((j + 1 : Nat) : ℚ) * 1
    have := hsum (j + 1) (by omega)
    push_cast at this ⊢
    rw [show t0 + 1 + (j : ℚ) * 1 = t0 + ((j : ℚ) + 1) by ring, this]
    ring
  refine ⟨_, hc, rfl, rfl, rfl, ?_, ?_⟩
  · have h := Event.step_rounds ops w rng
      { activity := ((opt.text "activity").orElse fun _ => opt.text "code").getD "",
        delay := 1, rate := 0, nextTime := t0 + 1 }
      s rfl (hact _) 4 (by decide)
      (by rw [ht]; show t0 + 1 < t0 + 5; linarith)
      (by
        intro j _ hj2
        rw [hsched j (by omega), ht]
        have : (j : ℚ) ≤ 3 := by exact_mod_cast Nat.le_of_lt_succ hj2
        linarith)
      (by
        rw [hsched 4 (le_refl 4), ht]
        push_cast
        linarith)
      fuel hf
    rw [h, hsched 4 (le_refl 4)]
    have e1 : t0 + 1 + ((4 : Nat) : ℚ) * 1 = t0 + 5 := by push_cast; ring
    rw [e1]
  · rw [w.unrelax_time, World.iterate_time w _ (hact _), w.relax_time, ht]

/-- C15, witness: in binary64, the event made at time 0 with `delay = 1`,
stepped with the clock at 5. -/
theorem Event_step_catch_up_witness :
    ∃ e, Event.create binary64 ⟨"", 0, 0, 0⟩ 0 (config none (some 1)) 0 = Except.ok e ∧
      e.rate = 0 ∧ e.delay = 1 ∧ e.nextTime = 0 + 1 ∧
      Event.step binary64 (countingWorld (0 + 5)) (fun _ => 0) 4 e 0 =
        some ({ e with nextTime := 0 + 5 },
          (countingWorld (0 + 5)).unrelax
            (((countingWorld (0 + 5)).evaluate e.activity)^[4]
              ((countingWorld (0 + 5)).relax 0)), 4) ∧
      (countingWorld (0 + 5)).time
        ((countingWorld (0 + 5)).unrelax
          (((countingWorld (0 + 5)).evaluate e.activity)^[4]
            ((countingWorld (0 + 5)).relax 0))) = 0 + 5 :=
  Event_step_catch_up binary64 (countingWorld (0 + 5)) (fun _ => 0) ⟨"", 0, 0, 0⟩ 0
    (config none (some 1)) 0 0 4 (by decide) (by decide) (fun _ _ => rfl) rfl (le_refl 4)
    (by
      intro j hj
      show round53 (0 + (j : ℚ) + 1) = 0 + ((j : ℚ) + 1)
      interval_cases j
      · rw [show (0 + ((0 : Nat) : ℚ) + 1 : ℚ) = 1 by norm_num, round53_small.1]; norm_num
      · rw [show (0 + ((1 : Nat) : ℚ) + 1 : ℚ) = 2 by norm_num, round53_small.2.1]; norm_num
      · rw [show (0 + ((2 : Nat) : ℚ) + 1 : ℚ) = 3 by norm_num, round53_small.2.2.1]; norm_num
      · rw [show (0 + ((3 : Nat) : ℚ) + 1 : ℚ) = 4 by norm_num, round53_small.2.2.2.1]
        norm_num
      · rw [show (0 + ((4 : Nat) : ℚ) + 1 : ℚ) = 5 by norm_num, round53_small.2.2.2.2.1]
        norm_num)

/-- C16, counterexample, in binary64. (a) With `delay = 1`, `nextTime = 2^53`
and the clock at `2^53 + 4`, the least `k` with `nextTime + k * d >= t` is 4,
but the rounded sum `2^53 + 1` is `2^53`: `nextTime` never moves and `step`
does not return, whatever the number of rounds allowed. (b) With `delay` and
`nextTime` the double 0.1 and the clock at the double 0.8, seven delays reach
the clock exactly, but the seventh rounded sum is below it: `step` evaluates
the activity 8 times. -/
theorem Event_step_rounding_changes_count :
    ((9007199254740992 : ℚ) + ((3 : Nat) : ℚ) * 1 < 9007199254740996 ∧
      (9007199254740996 : ℚ) ≤ 9007199254740992 + ((4 : Nat) : ℚ) * 1 ∧
      ∀ fuel, Event.step binary64 (countingWorld 9007199254740996) (fun _ => 0) fuel
        ⟨"", 1, 0, 9007199254740992⟩ 0 = none) ∧
    (eightTenths ≤ tenth + ((7 : Nat) : ℚ) * tenth ∧
      Event.step binary64 (countingWorld eightTenths) (fun _ => 0) 8 ⟨"", tenth, 0, tenth⟩ 0 =
        some (⟨"", tenth, 0, 2026619832316723 / 2251799813685248⟩, 8, 8)) := by
  refine ⟨⟨by norm_num, by norm_num, ?_⟩, ⟨by unfold eightTenths tenth; norm_num, ?_⟩⟩
  · intro fuel
    apply Event.step_never binary64 (countingWorld 9007199254740996) (fun _ => 0)
      ⟨"", 1, 0, 9007199254740992⟩ 0 rfl (fun _ => rfl)
    · norm_num [countingWorld]
    · intro j _
      rw [absorbed_schedule]
      norm_num [countingWorld]
  · have hs := tenth_schedule
    have h := Event.step_rounds binary64 (countingWorld eightTenths) (fun _ => 0)
      ⟨"", tenth, 0, tenth⟩ 0 rfl (fun _ => rfl) 8 (by decide)
      (by unfold eightTenths tenth; norm_num [countingWorld])
      (by
        intro j hj1 hj2
        show Event.schedule binary64 ⟨"", tenth, 0, tenth⟩ j < eightTenths
        unfold eightTenths
        interval_cases j
        · rw [hs.1]; norm_num
        · rw [hs.2.1]; norm_num
        · rw [hs.2.2.1]; norm_num
        · rw [hs.2.2.2.1]; norm_num
        · rw [hs.2.2.2.2.1]; norm_num
        · rw [hs.2.2.2.2.2.1]; norm_num
        · rw [hs.2.2.2.2.2.2.1]; norm_num)
      (by
        show eightTenths ≤ Event.schedule binary64 ⟨"", tenth, 0, tenth⟩ 8
        rw [hs.2.2.2.2.2.2.2]
        unfold eightTenths
        norm_num)
      8 (le_refl 8)
    rw [h, hs.2.2.2.2.2.2.2]
    rfl

/-- C16, amended. For an event with `rate = 0` and a delay `d > 0`, and an
activity that leaves the clock `t` as it is, whatever the arithmetic of
`real`. When `t <= nextTime`, `step` evaluates nothing and changes nothing.
Otherwise every round replaces `nextTime` by the rounded sum of `nextTime` and
`d`: when the `k`-th of these sums is the first to reach `t`, `step`, given `k`
rounds or more, ends after exactly `k` evaluations with `nextTime` that sum;
when none reaches `t`, `step` does not return. There is a least positive
integer `k` with `nextTime + k * d >= t`, and when the first `k` sums are
computed exactly, `step` ends after exactly `k` evaluations with `nextTime`
increased by `k * d`. -/
theorem Event_step_fixed_delay {σ : Type} (ops : RealOps) (w : World σ) (rng : Nat → ℚ)
    (e : Event) (s : σ) (hr : e.rate = 0) (hd : 0 < e.delay)
    (hact : ∀ x, w.time (w.evaluate e.activity x) = w.time x) :
    (w.time s ≤ e.nextTime → ∀ fuel, Event.step ops w rng fuel e s = some (e, s, 0)) ∧
    (e.nextTime < w.time s →
      (∀ k : Nat, 1 ≤ k →
        (∀ j : Nat, 1 ≤ j → j < k → Event.schedule ops e j < w.time s) →
        w.time s ≤ Event.schedule ops e k →
        ∀ fuel, k ≤ fuel →
          Event.step ops w rng fuel e s =
            some ({ e with nextTime := Event.schedule ops e k },
              w.unrelax ((w.evaluate e.activity)^[k] (w.relax s)), k)) ∧
      ((∀ j : Nat, 1 ≤ j → Event.schedule ops e j < w.time s) →
        ∀ fuel, Event.step ops w rng fuel e s = none) ∧
      ∃ k : Nat, 1 ≤ k ∧ w.time s ≤ e.nextTime + k * e.delay ∧
        (∀ j : Nat, 1 ≤ j → j < k → e.nextTime + j * e.delay < w.time s) ∧
        ((∀ j : Nat, j < k →
            ops.add (e.nextTime + j * e.delay) e.delay =
              e.nextTime + ((j + 1 : Nat) : ℚ) * e.delay) →
          ∀ fuel, k ≤ fuel →
            Event.step ops w rng fuel e s =
              some ({ e with nextTime := e.nextTime + k * e.delay },
                w.unrelax ((w.evaluate e.activity)^[k] (w.relax s)), k))) := by
  constructor
  · intro hle fuel
    unfold Event.step
    rw [if_neg (not_lt.mpr hle)]
  · intro hnow
    refine ⟨?_, ?_, ?_⟩
    · intro k hk hlt hge fuel hf
      exact Event.step_rounds ops w rng e s hr hact k hk hnow hlt hge fuel hf
    · intro hlt fuel
      exact Event.step_never ops w rng e s hr hact hnow hlt fuel
    · obtain ⟨k, hk1, hk2, hk3⟩ := exists_least_rounds e.nextTime (w.time s) e.delay hd
      refine ⟨k, hk1, hk2, hk3, ?_⟩
      intro hex fuel hf
      have hsched := Event.schedule_exact ops e k hex
      have h := Event.step_rounds ops w rng e s hr hact k hk1 hnow
        (by intro j hj1 hj2; rw [hsched j (by omega)]; exact hk3 j hj1 hj2)
        (by rw [hsched k (le_refl k)]; exact hk2) fuel hf
      rw [h, hsched k (le_refl k)]

/-- C16, witness: in binary64, `Event(time=0, delay=2)` stepped with the
clock at 1, 3 and 5 evaluates the activity 0, 1 and 1 times and leaves
`nextTime` at 2, 4 and 6. -/
theorem Event_step_fixed_delay_witness :
    Event.create binary64 ⟨"", 0, 0, 0⟩ 0 (config none (some 2)) 0 = Except.ok ⟨"", 2, 0, 2⟩ ∧
    Event.step binary64 (countingWorld 1) (fun _ => 0) 1 ⟨"", 2, 0, 2⟩ 0 =
      some (⟨"", 2, 0, 2⟩, 0, 0) ∧
    Event.step binary64 (countingWorld 3) (fun _ => 0) 1 ⟨"", 2, 0, 2⟩ 0 =
      some (⟨"", 2, 0, 4⟩, 1, 1) ∧
    Event.step binary64 (countingWorld 5) (fun _ => 0) 1 ⟨"", 2, 0, 4⟩ 1 =
      some (⟨"", 2, 0, 6⟩, 2, 1) := by
  have h24 : Event.schedule binary64 ⟨"", 2, 0, 2⟩ 1 = 4 := by
    show round53 (2 + 2) = 4
    rw [show (2 + 2 : ℚ) = 4 by norm_num]
    exact round53_small.2.2.2.1
  have h46 : Event.schedule binary64 ⟨"", 2, 0, 4⟩ 1 = 6 := by
    show round53 (4 + 2) = 6
    rw [show (4 + 2 : ℚ) = 6 by norm_num]
    exact round53_small.2.2.2.2.2
  refine ⟨Event.create_delay_two, ?_, ?_, ?_⟩
  · exact (Event_step_fixed_delay binary64 (countingWorld 1) (fun _ => 0) ⟨"", 2, 0, 2⟩ 0 rfl
      (by norm_num) (fun _ => rfl)).1 (by norm_num [countingWorld]) 1
  · have h := ((Event_step_fixed_delay binary64 (countingWorld 3) (fun _ => 0) ⟨"", 2, 0, 2⟩ 0
      rfl (by norm_num) (fun _ => rfl)).2 (by norm_num [countingWorld])).1 1 (le_refl 1)
      (by intro j hj1 hj2; omega) (by rw [h24]; norm_num [countingWorld]) 1 (le_refl 1)
    rw [h, h24]
    rfl
  · have h := ((Event_step_fixed_delay binary64 (countingWorld 5) (fun _ => 0) ⟨"", 2, 0, 4⟩ 1
      rfl (by norm_num) (fun _ => rfl)).2 (by norm_num [countingWorld])).1 1 (le_refl 1)
      (by intro j hj1 hj2; omega) (by rw [h46]; norm_num [countingWorld]) 1 (le_refl 1)
    rw [h, h46]
    rfl

/-! ## Seeking past the last frame -/

set_option maxRecDepth 20000

end Cytosim
